import Mathlib

/-!
# save-sync : verification of the backup synchronization engine

Shallow embedding of the `save-sync` repository (Rust).  Paths are modelled as
lists of components (`FPath`), the live filesystem as a tree (`FsTree`) whose
directory entries may individually fail to be read (mirroring the
`io::Result<DirEntry>` items of `fs::read_dir`), the SQLite metadata store as
record lists (`Db`), and the side-effecting workflow operations of
`cli/src/archive.rs` as pure functions returning an event trace
(`List Event`) together with an `Except` result.  A Rust panic is modelled as
an `Except.error` of a dedicated kind.  The content hasher
(`Archive::calc_hash` followed by `Archive::u64_to_byte_vec`) is kept as an
explicit function parameter `hash : List Nat → List Nat`, since every claim
only depends on equality of digests, never on a concrete xxhash value.
-/

set_option autoImplicit false

namespace SaveSync

/-- A filesystem path, as its list of components (`std::path::Path::components`). -/
abbrev FPath := List String

/-- Live filesystem: a file (with a readability flag used to model `fs::File::open`
or `fs::copy` failures) or a directory.  A directory carries a flag telling
whether `fs::read_dir` succeeds on it, and its entries; an entry of `none`
models an `io::Result<DirEntry>` that is an `Err` while iterating. -/
inductive FsTree where
  | file (readable : Bool) (content : List Nat)
  | dir (readable : Bool) (entries : List (Option (String × FsTree)))
deriving Repr

/-- Look a path up in a tree (the tree is the node the empty path refers to). -/
def FsTree.lookup : FsTree → FPath → Option FsTree
  | t, [] => some t
  | FsTree.dir _ es, n :: rest =>
      match es.findSome? (fun e => match e with
        | some (m, t) => if m = n then some t else none
        | none => none) with
      | some t => t.lookup rest
      | none => none
  | FsTree.file _ _, _ :: _ => none

/-- Model of `Path::exists` for the model. -/
def pathExists (fs : FsTree) (p : FPath) : Bool :=
  (fs.lookup p).isSome

/-- Model of `Path::is_dir` for the model. -/
def isDir (fs : FsTree) (p : FPath) : Bool :=
  match fs.lookup p with
  | some (FsTree.dir _ _) => true
  | _ => false

/-- Model of `Path::is_file` for the model. -/
def isFile (fs : FsTree) (p : FPath) : Bool :=
  match fs.lookup p with
  | some (FsTree.file _ _) => true
  | _ => false

/-- Reading the bytes of a file, as done by `Archive::calc_hash` or `fs::copy`:
fails (`Except.error ()`) when the path is absent, is a directory, or is unreadable. -/
def readContent (fs : FsTree) (p : FPath) : Except Unit (List Nat) :=
  match fs.lookup p with
  | some (FsTree.file true c) => Except.ok c
  | _ => Except.error ()

mutual

/-- Model of `Archive::crawl` (cli/src/archive.rs, lines 344-361) applied to the node `t`
sitting at path `p`.  `fs::read_dir` failing (a file, or an unreadable
directory) yields the empty list; a directory entry whose read errors is hit
by `entry.unwrap()` in the source and therefore panics, modelled as
`Except.error ()`. -/
def crawl (p : FPath) (t : FsTree) : Except Unit (List FPath) :=
  match t with
  | FsTree.file _ _ => Except.ok []
  | FsTree.dir false _ => Except.ok []
  | FsTree.dir true es => crawlEntries p es

/-- Processing of the `fs::read_dir` iterator inside `Archive::crawl`: for each
entry, recurse when it is a directory, then push the entry path itself. -/
def crawlEntries (p : FPath) (es : List (Option (String × FsTree))) :
    Except Unit (List FPath) :=
  match es with
  | [] => Except.ok []
  | none :: _ => Except.error ()
  | some (n, t) :: rest =>
      let child := p ++ [n]
      match (match t with
             | FsTree.dir r es' => crawl child (FsTree.dir r es')
             | _ => Except.ok []) with
      | Except.error e => Except.error e
      | Except.ok sub =>
          match crawlEntries p rest with
          | Except.error e => Except.error e
          | Except.ok tail => Except.ok (sub ++ [child] ++ tail)

end

/-- Model of `Archive::crawl` called on a path of the global filesystem: `fs::read_dir`
on an absent path fails, which the source swallows into an empty list. -/
def crawlAt (fs : FsTree) (p : FPath) : Except Unit (List FPath) :=
  match fs.lookup p with
  | some t => crawl p t
  | none => Except.ok []

mutual

/-- Truth of "no directory entry anywhere in this subtree errors when read". -/
def errFree : FsTree → Bool
  | FsTree.file _ _ => true
  | FsTree.dir _ es => errFreeEntries es

def errFreeEntries : List (Option (String × FsTree)) → Bool
  | [] => true
  | none :: _ => false
  | some (_, t) :: rest => errFree t && errFreeEntries rest

end

/-- The error taxonomy of the workflow layer (`anyhow` errors and panics of
cli/src/archive.rs and src/database.rs, collapsed to their kinds). -/
inductive Err where
  /-- create: "\x7b\x7d does not exist on disk." -/
  | doesNotExist
  /-- create_backup_path: "Unable to determine the name (last part) of \x7b\x7d" -/
  | unknownFileName
  /-- get_backup_path: "Unable to determine file / directory name of \x7b\x7d" -/
  | cannotDetermineName
  /-- any `std::io` failure (open / read / copy / remove) -/
  | ioError
  /-- a Rust `panic!` that propagates (crawl `entry.unwrap()`, db multi-match) -/
  | panic
  /-- create: "Unable to query \x7b\x7d from db." -/
  | unableToQuery
  /-- check: "\x7b\x7d does not have any files associated with it." -/
  | noFiles
  /-- delete: "Unable to determine parent of \x7b\x7d" -/
  | unknownParent
  /-- update_file: "Unable to retrieve file with path \x7b\x7d from the database." -/
  | fileNotFound
deriving DecidableEq, Repr

/-- Model of `Archive::get_backup_path` (cli/src/archive.rs, lines 373-394): take the
final component of `backup_path` as anchor, accumulate components of
`file_path` until one equals the anchor (inclusive), strip that prefix and
join the remainder onto `backup_path`. -/
def takeThroughAnchor : List String → String → List String
  | [], _ => []
  | c :: rest, a => if c = a then [c] else c :: takeThroughAnchor rest a

def get_backup_path (file_path backup_path : FPath) : Except Err FPath :=
  match backup_path.getLast? with
  | none => Except.error Err.cannotDetermineName
  | some anchor =>
      let base := takeThroughAnchor file_path anchor
      let prefixless := file_path.drop base.length
      Except.ok (backup_path ++ prefixless)

/-! ## Data model (src/src/models.rs); timestamps are abstracted to `Int`. -/

/-- Model of `models::Save` — a Save row of the metadata store. -/
structure Save where
  id : Int
  friendly_name : String
  save_path : FPath
  backup_path : FPath
  uuid : String
  user_id : Int
  created_at : Int
  modified_at : Int
deriving DecidableEq, Repr

/-- Model of `models::NewSave` — a Save about to be inserted (the id is assigned by the store). -/
structure NewSave where
  friendly_name : String
  save_path : FPath
  backup_path : FPath
  uuid : String
  user_id : Int
  created_at : Int
  modified_at : Int
deriving DecidableEq, Repr

/-- Model of `models::File` — a File row of the metadata store. -/
structure File where
  id : Int
  file_path : FPath
  file_hash : List Nat
  save_id : Int
  created_at : Int
  modified_at : Int
deriving DecidableEq, Repr

/-- Model of `models::NewFile`. -/
structure NewFile where
  file_path : FPath
  file_hash : List Nat
  save_id : Int
  created_at : Int
  modified_at : Int
deriving DecidableEq, Repr

/-- Model of `models::EditFile`. -/
structure EditFile where
  id : Int
  file_hash : List Nat
  modified_at : Int
deriving DecidableEq, Repr

/-- Model of `models::User`. -/
structure User where
  id : Int
  username : String
  created_at : Int
  modified_at : Int
deriving DecidableEq, Repr

/-! ## Queries (src/src/archive.rs, `pub mod query`) -/

/-- Model of `query::SaveQuery`. -/
structure SaveQuery where
  id : Option Int
  friendly_name : Option String
  uuid : Option String
  path : Option FPath
  user_id : Option Int
deriving DecidableEq, Repr

def SaveQuery.new : SaveQuery :=
  { id := none, friendly_name := none, uuid := none, path := none, user_id := none }

def SaveQuery.with_id (q : SaveQuery) (id : Int) : SaveQuery := { q with id := some id }

def SaveQuery.with_path (q : SaveQuery) (path : FPath) : SaveQuery := { q with path := some path }

def SaveQuery.with_friendly_name (q : SaveQuery) (name : String) : SaveQuery :=
  { q with friendly_name := some name }

def SaveQuery.with_user_id (q : SaveQuery) (id : Int) : SaveQuery := { q with user_id := some id }

def SaveQuery.with_uuid (q : SaveQuery) (uuid : String) : SaveQuery := { q with uuid := some uuid }

/-- Model of `query::FileQuery`. -/
structure FileQuery where
  id : Option Int
  path : Option FPath
  hash : Option (List Nat)
  save_id : Option Int
deriving DecidableEq, Repr

def FileQuery.new : FileQuery := { id := none, path := none, hash := none, save_id := none }

def FileQuery.with_id (q : FileQuery) (id : Int) : FileQuery := { q with id := some id }

def FileQuery.with_path (q : FileQuery) (path : FPath) : FileQuery := { q with path := some path }

def FileQuery.with_hash (q : FileQuery) (hash : List Nat) : FileQuery := { q with hash := some hash }

def FileQuery.with_save_id (q : FileQuery) (save_id : Int) : FileQuery :=
  { q with save_id := some save_id }

/-! ## The metadata store (src/src/database.rs)

The SQLite tables become record lists; row ids are assigned from a counter,
mirroring autoincrement.  A `panic!` (the "Expected 1 ... found multiple"
arms) is modelled as `Except.error ()`. -/

structure Db where
  saves : List Save
  files : List File
  next_save_id : Int
  next_file_id : Int
deriving DecidableEq, Repr

/-- Model of `Database::does_save_exist`. -/
def Db.does_save_exist (db : Db) (path : FPath) : Bool :=
  db.saves.any (fun s => s.save_path = path)

/-- Model of `Database::does_file_exist`. -/
def Db.does_file_exist (db : Db) (path : FPath) : Bool :=
  db.files.any (fun f => f.file_path = path)

/-- Model of `Database::create_save` — a no-op when a save with the same `save_path` exists. -/
def Db.create_save (db : Db) (save : NewSave) : Db :=
  if db.does_save_exist save.save_path then db
  else
    { db with
      saves := db.saves ++ [{ id := db.next_save_id
                              friendly_name := save.friendly_name
                              save_path := save.save_path
                              backup_path := save.backup_path
                              uuid := save.uuid
                              user_id := save.user_id
                              created_at := save.created_at
                              modified_at := save.modified_at }]
      next_save_id := db.next_save_id + 1 }

/-- Model of `Database::get_save` (src/src/database.rs, lines 93-120).  Note: the source
examines `query.id`, then `query.friendly_name`, then `query.path` — and never
`query.uuid`; a query populated only with a uuid leaves `list` empty.  More
than one match panics (`Except.error ()`). -/
def Db.get_save (db : Db) (query : SaveQuery) : Except Unit (Option Save) :=
  let list : List Save :=
    match query.id with
    | some search_id => db.saves.filter (fun s => s.id = search_id)
    | none =>
        match query.friendly_name with
        | some name => db.saves.filter (fun s => s.friendly_name = name)
        | none =>
            match query.path with
            | some path => db.saves.filter (fun s => s.save_path = path)
            | none => []
  match list with
  | [] => Except.ok none
  | [s] => Except.ok (some s)
  | _ => Except.error ()

/-- Model of `Database::delete_save` — by id, else friendly name, else path. -/
def Db.delete_save (db : Db) (query : SaveQuery) : Db :=
  match query.id with
  | some search_id => { db with saves := db.saves.filter (fun s => ¬ s.id = search_id) }
  | none =>
      match query.friendly_name with
      | some name => { db with saves := db.saves.filter (fun s => ¬ s.friendly_name = name) }
      | none =>
          match query.path with
          | some path => { db with saves := db.saves.filter (fun s => ¬ s.save_path = path) }
          | none => db

/-- Model of `Database::create_file` — a no-op when a file with the same `file_path` exists. -/
def Db.create_file (db : Db) (file : NewFile) : Db :=
  if db.does_file_exist file.file_path then db
  else
    { db with
      files := db.files ++ [{ id := db.next_file_id
                              file_path := file.file_path
                              file_hash := file.file_hash
                              save_id := file.save_id
                              created_at := file.created_at
                              modified_at := file.modified_at }]
      next_file_id := db.next_file_id + 1 }

/-- Model of `Database::get_file` — by id, else path, else hash; panics on multiple. -/
def Db.get_file (db : Db) (query : FileQuery) : Except Unit (Option File) :=
  let list : List File :=
    match query.id with
    | some search_id => db.files.filter (fun f => f.id = search_id)
    | none =>
        match query.path with
        | some path => db.files.filter (fun f => f.file_path = path)
        | none =>
            match query.hash with
            | some hash => db.files.filter (fun f => f.file_hash = hash)
            | none => []
  match list with
  | [] => Except.ok none
  | [f] => Except.ok (some f)
  | _ => Except.error ()

/-- Model of `Database::get_files` — by owning save id; `None` when nothing matches. -/
def Db.get_files (db : Db) (query : FileQuery) : Option (List File) :=
  let list : List File :=
    match query.save_id with
    | some search_save_id => db.files.filter (fun f => f.save_id = search_save_id)
    | none => []
  if list.isEmpty then none else some list

/-- Model of `Database::update_file` — set hash and modified time of the row with the edit's id. -/
def Db.update_file (db : Db) (edit : EditFile) : Db :=
  { db with
    files := db.files.map (fun f =>
      if f.id = edit.id then
        { f with file_hash := edit.file_hash, modified_at := edit.modified_at }
      else f) }

/-- Model of `Database::delete_file` — by id, else path, else hash. -/
def Db.delete_file (db : Db) (query : FileQuery) : Db :=
  match query.id with
  | some search_id => { db with files := db.files.filter (fun f => ¬ f.id = search_id) }
  | none =>
      match query.path with
      | some path => { db with files := db.files.filter (fun f => ¬ f.file_path = path) }
      | none =>
          match query.hash with
          | some hash => { db with files := db.files.filter (fun f => ¬ f.file_hash = hash) }
          | none => db

/-! ## Effect traces

The workflow operations of cli/src/archive.rs mutate the filesystem and the
metadata store.  Each operation is embedded as a pure function returning the
list of effects it performed (in order) next to its `Except` result; the state
after an (possibly interrupted) run is recovered by replaying a trace prefix. -/

inductive Event where
  /-- Model of `fs::create_dir_all` on a backup-side directory -/
  | mkDirAll (p : FPath)
  /-- Model of `fs::copy` of the bytes `content` from `src` to `dst` -/
  | copyFile (src dst : FPath) (content : List Nat)
  /-- Model of `fs::remove_file` on a backup-side file -/
  | removeFile (p : FPath)
  /-- Model of `fs::remove_dir_all` on a backup directory tree -/
  | removeDirAll (p : FPath)
  /-- Model of `Database::create_save` -/
  | dbInsertSave (s : NewSave)
  /-- Model of `Database::create_file` -/
  | dbInsertFile (f : NewFile)
  /-- Model of `Database::delete_file` with an id query -/
  | dbDeleteFileById (id : Int)
  /-- Model of `Database::delete_file` with a path query -/
  | dbDeleteFileByPath (p : FPath)
  /-- Model of `Database::delete_save` with an id query -/
  | dbDeleteSaveById (id : Int)
  /-- Model of `Database::update_file` -/
  | dbUpdateFile (e : EditFile)
deriving DecidableEq, Repr

/-- Does the event write to the metadata store? -/
def Event.isDbWrite : Event → Bool
  | Event.dbInsertSave _ => true
  | Event.dbInsertFile _ => true
  | Event.dbDeleteFileById _ => true
  | Event.dbDeleteFileByPath _ => true
  | Event.dbDeleteSaveById _ => true
  | Event.dbUpdateFile _ => true
  | _ => false

/-- Does the event write to the (backup-side) filesystem? -/
def Event.isFsWrite : Event → Bool
  | Event.mkDirAll _ => true
  | Event.copyFile _ _ _ => true
  | Event.removeFile _ => true
  | Event.removeDirAll _ => true
  | _ => false

/-- Replaying one event against the metadata store (filesystem events are skipped). -/
def applyDbEvent (db : Db) : Event → Db
  | Event.dbInsertSave s => db.create_save s
  | Event.dbInsertFile f => db.create_file f
  | Event.dbDeleteFileById i => db.delete_file (FileQuery.new.with_id i)
  | Event.dbDeleteFileByPath p => db.delete_file (FileQuery.new.with_path p)
  | Event.dbDeleteSaveById i => db.delete_save (SaveQuery.new.with_id i)
  | Event.dbUpdateFile e => db.update_file e
  | _ => db

def replayDb (db : Db) : List Event → Db
  | [] => db
  | e :: rest => replayDb (applyDbEvent db e) rest

/-- The backup side of the filesystem, as far as the engine observes it:
the set of directories created and the files copied there. -/
structure BackupFs where
  dirs : List FPath
  files : List (FPath × List Nat)
deriving DecidableEq, Repr

def BackupFs.hasFile (b : BackupFs) (p : FPath) : Bool :=
  b.files.any (fun x => x.1 = p)

/-- Replaying one event against the backup filesystem (db events are skipped). -/
def applyFsEvent (b : BackupFs) : Event → BackupFs
  | Event.mkDirAll p => { b with dirs := p :: b.dirs }
  | Event.copyFile _ dst c =>
      { b with files := (dst, c) :: b.files.filter (fun x => ¬ x.1 = dst) }
  | Event.removeFile p => { b with files := b.files.filter (fun x => ¬ x.1 = p) }
  | Event.removeDirAll p =>
      { dirs := b.dirs.filter (fun d => ¬ p.isPrefixOf d)
        files := b.files.filter (fun x => ¬ p.isPrefixOf x.1) }
  | _ => b

def replayBfs (b : BackupFs) : List Event → BackupFs
  | [] => b
  | e :: rest => replayBfs (applyFsEvent b e) rest

/-! ## The synchronization workflow (src/cli/src/archive.rs) -/

/-- Model of `options::SaveOptions`. -/
structure SaveOptions where
  friendly_name : Option String
deriving DecidableEq, Repr

/-- Model of `change::Type` (named `ChangeType` here since `Type` is reserved). -/
inductive ChangeType where
  | update
  | new
  | missing
deriving DecidableEq, Repr

/-- Model of `change::SaveUpdate`. -/
structure SaveUpdate where
  change : ChangeType
  path : FPath
deriving DecidableEq, Repr

/-- Model of `Path::to_string_lossy` over component lists (used only to render changelog lines). -/
def pathToString (p : FPath) : String :=
  String.intercalate "/" p

/-- Model of `Archive::create_backup_path` (cli/src/archive.rs, lines 332-342):
`<data_location>/<uuid>/<basename(path)>`; fails when `path` has no final component. -/
def create_backup_path (data_location : FPath) (path : FPath) (uuid : String) :
    Except Err FPath :=
  match path.getLast? with
  | none => Except.error Err.unknownFileName
  | some name => Except.ok (data_location ++ [uuid, name])

/-- Model of `Archive::copy_file_to_backup_dir` (cli/src/archive.rs, lines 396-423).
For a directory: ensure the mapped directory exists.  For anything else the
source assumes a file: ensure the mapped parent directory exists, then
`fs::copy`, which fails when the source is absent or unreadable.  The
source's `exists()` guards before `create_dir_all` only skip an idempotent
creation and are elided; the trace records the (idempotent) `mkDirAll`. -/
def copy_file_to_backup_dir (fs : FsTree) (backup_path : FPath) (file_path : FPath) :
    List Event × Except Err Unit :=
  match get_backup_path file_path backup_path with
  | Except.error e => ([], Except.error e)
  | Except.ok dst =>
      if isDir fs file_path then
        ([Event.mkDirAll dst], Except.ok ())
      else
        match readContent fs file_path with
        | Except.ok c =>
            ([Event.mkDirAll dst.dropLast, Event.copyFile file_path dst c], Except.ok ())
        | Except.error _ => ([Event.mkDirAll dst.dropLast], Except.error Err.ioError)

/-- Model of `Archive::copy_save_files` (cli/src/archive.rs, lines 363-371): copy each
crawled entry in order, aborting on the first failure (events performed
before the failure are kept in the trace). -/
def copy_save_files (fs : FsTree) (save : NewSave) :
    List FPath → List Event × Except Err Unit
  | [] => ([], Except.ok ())
  | f :: rest =>
      match copy_file_to_backup_dir fs save.backup_path f with
      | (ev, Except.error e) => (ev, Except.error e)
      | (ev, Except.ok ()) =>
          match copy_save_files fs save rest with
          | (ev', r) => (ev ++ ev', r)

/-- Model of `Archive::create_file` (cli/src/archive.rs, lines 278-302): hash the live
file (fails when it cannot be read) and insert a File record. -/
def create_file (fs : FsTree) (db : Db) (save : Save) (path : FPath) (time : Int)
    (hash : List Nat → List Nat) : List Event × Except Err Db :=
  match readContent fs path with
  | Except.error _ => ([], Except.error Err.ioError)
  | Except.ok content =>
      let new_file : NewFile :=
        { file_path := path, file_hash := hash content, save_id := save.id
          created_at := time, modified_at := time }
      ([Event.dbInsertFile new_file], Except.ok (db.create_file new_file))

/-- Model of `Archive::update_file` (cli/src/archive.rs, lines 304-330): look the File
record up by path (absent is an error, several is a panic), re-hash the live
file, and write the edit. -/
def update_file (fs : FsTree) (db : Db) (path : FPath) (time : Int)
    (hash : List Nat → List Nat) : List Event × Except Err Db :=
  match db.get_file (FileQuery.new.with_path path) with
  | Except.error _ => ([], Except.error Err.panic)
  | Except.ok none => ([], Except.error Err.fileNotFound)
  | Except.ok (some original_file) =>
      match readContent fs path with
      | Except.error _ => ([], Except.error Err.ioError)
      | Except.ok content =>
          let edit : EditFile :=
            { id := original_file.id, file_hash := hash content, modified_at := time }
          ([Event.dbUpdateFile edit], Except.ok (db.update_file edit))

/-- The File-record loop at the end of `Archive::create_save` (cli/src/archive.rs,
lines 75-80): for every crawled entry that is a regular file, `create_file`. -/
def create_save_loop (fs : FsTree) (db : Db) (save : Save) (time : Int)
    (hash : List Nat → List Nat) : List FPath → List Event × Except Err Unit
  | [] => ([], Except.ok ())
  | f :: rest =>
      if isFile fs f then
        match create_file fs db save f time hash with
        | (ev, Except.error e) => (ev, Except.error e)
        | (ev, Except.ok db') =>
            match create_save_loop fs db' save time hash rest with
            | (ev', r) => (ev ++ ev', r)
      else create_save_loop fs db save time hash rest

/-- The `NewSave` value built inside `Archive::create_save` (cli/src/archive.rs,
lines 44-59): the friendly name defaults to the empty string. -/
def newSaveOf (user : User) (path : FPath) (opt : SaveOptions)
    (backup_pathbuf : FPath) (uuid : String) (time : Int) : NewSave :=
  { friendly_name := match opt.friendly_name with | some name => name | none => ""
    save_path := path, backup_path := backup_pathbuf, uuid := uuid
    user_id := user.id, created_at := time, modified_at := time }

/-- Model of `Archive::create_save` (cli/src/archive.rs, lines 18-83).  The fresh UUID,
the current time and the configured `data_location` are parameters.  Steps,
in source order: existence check on `path`; backup path derivation; crawl;
copy of every crawled entry; `Database::create_save`; re-query of the save by
uuid (whose `None` answer is turned into the "Unable to query ... from db."
error); File-record creation for every crawled regular file. -/
def create_save (db : Db) (fs : FsTree) (user : User) (path : FPath)
    (opt : SaveOptions) (data_location : FPath) (uuid : String) (time : Int)
    (hash : List Nat → List Nat) : List Event × Except Err Unit :=
  if ¬ pathExists fs path then ([], Except.error Err.doesNotExist)
  else
    match create_backup_path data_location path uuid with
    | Except.error e => ([], Except.error e)
    | Except.ok backup_pathbuf =>
        let new_save : NewSave := newSaveOf user path opt backup_pathbuf uuid time
        match crawlAt fs path with
        | Except.error _ => ([], Except.error Err.panic)
        | Except.ok files =>
            match copy_save_files fs new_save files with
            | (ev, Except.error e) => (ev, Except.error e)
            | (ev, Except.ok ()) =>
                let db1 := db.create_save new_save
                let ev1 := ev ++ [Event.dbInsertSave new_save]
                match db1.get_save (SaveQuery.new.with_uuid uuid) with
                | Except.error _ => (ev1, Except.error Err.panic)
                | Except.ok none => (ev1, Except.error Err.unableToQuery)
                | Except.ok (some save) =>
                    match create_save_loop fs db1 save time hash files with
                    | (ev', r) => (ev1 ++ ev', r)

/-- Model of `Path::parent` over component lists: only the empty path has no parent. -/
def parentPath : FPath → Option FPath
  | [] => none
  | l@(_ :: _) => some l.dropLast

/-- Model of `Archive::delete_save` (cli/src/archive.rs, lines 85-109): compute the
parent (UUID directory) of the backup path, delete every File record of the
save, delete the Save record, then remove the backup directory tree. -/
def delete_save (db : Db) (save : Save) : List Event × Except Err Unit :=
  match parentPath save.backup_path with
  | none => ([], Except.error Err.unknownParent)
  | some backup_parent =>
      let file_events :=
        match db.get_files (FileQuery.new.with_save_id save.id) with
        | some files => files.map (fun f => Event.dbDeleteFileById f.id)
        | none => []
      (file_events ++ [Event.dbDeleteSaveById save.id] ++ [Event.removeDirAll backup_parent],
       Except.ok ())

/-- The tracked map built inside `Archive::check_save` (a `HashMap` keyed by
path; inserting in tracked order means a later duplicate path overwrites an
earlier one, hence the lookup takes the last matching pair). -/
def trackedPairs (tracked : List File) : List (FPath × List Nat) :=
  tracked.map (fun f => (f.file_path, f.file_hash))

def mapLookup (m : List (FPath × List Nat)) (p : FPath) : Option (List Nat) :=
  (m.reverse.find? (fun x => x.1 = p)).map (fun x => x.2)

/-- The first pass of `Archive::check_save` (cli/src/archive.rs, lines 176-188):
a `Missing` record for every tracked File whose path equals no crawled path. -/
def missingRecords (tracked : List File) (current : List FPath) : List SaveUpdate :=
  tracked.filterMap (fun file =>
    if current.any (fun path => file.file_path = path) then none
    else some { change := ChangeType.missing, path := file.file_path })

/-- The second pass of `Archive::check_save` (cli/src/archive.rs, lines 190-217):
for every crawled regular file, `New` when untracked, else re-hash (which can
fail) and `Update` exactly on digest mismatch. -/
def classifyCurrent (fs : FsTree) (m : List (FPath × List Nat))
    (hash : List Nat → List Nat) : List FPath → Except Err (List SaveUpdate)
  | [] => Except.ok []
  | p :: rest =>
      if isFile fs p then
        match mapLookup m p with
        | some expected =>
            match readContent fs p with
            | Except.error _ => Except.error Err.ioError
            | Except.ok content =>
                let actual := hash content
                match classifyCurrent fs m hash rest with
                | Except.error e => Except.error e
                | Except.ok tail =>
                    Except.ok ((if ¬ actual = expected then
                                  [{ change := ChangeType.update, path := p }]
                                else []) ++ tail)
        | none =>
            match classifyCurrent fs m hash rest with
            | Except.error e => Except.error e
            | Except.ok tail => Except.ok ({ change := ChangeType.new, path := p } :: tail)
      else classifyCurrent fs m hash rest

/-- Model of `Archive::check_save` (cli/src/archive.rs, lines 154-220). -/
def check_save (db : Db) (fs : FsTree) (save : Save)
    (hash : List Nat → List Nat) : Except Err (List SaveUpdate) :=
  match db.get_files (FileQuery.new.with_save_id save.id) with
  | none => Except.error Err.noFiles
  | some tracked =>
      match crawlAt fs save.save_path with
      | Except.error _ => Except.error Err.panic
      | Except.ok current =>
          match classifyCurrent fs (trackedPairs tracked) hash current with
          | Except.error e => Except.error e
          | Except.ok rest => Except.ok (missingRecords tracked current ++ rest)

/-- The changelog line pushed for one record by `Archive::update_save`. -/
def logLine (r : SaveUpdate) : String :=
  match r.change with
  | ChangeType.missing => "\nMissing (NOW DELETING!!!): " ++ pathToString r.path
  | ChangeType.new => "\nNew: " ++ pathToString r.path
  | ChangeType.update => "\nUpdated: " ++ pathToString r.path

/-- One iteration of the loop of `Archive::update_save` (cli/src/archive.rs,
lines 120-149): apply a single change record.  `Missing` deletes the File
record by path, maps the backup path (fallible) and removes the backup-side
file (fails when it is not there); `New` copies into the backup and creates a
File record; `Update` copies and rewrites the record's digest. -/
def applyChange (fs : FsTree) (bfs : BackupFs) (db : Db) (save : Save) (time : Int)
    (hash : List Nat → List Nat) (log : SaveUpdate) :
    List Event × Except Err (Db × BackupFs × String) :=
  let line := logLine log
  match log.change with
  | ChangeType.missing =>
      let db' := db.delete_file (FileQuery.new.with_path log.path)
      let ev0 := [Event.dbDeleteFileByPath log.path]
      match get_backup_path log.path save.backup_path with
      | Except.error e => (ev0, Except.error e)
      | Except.ok dst =>
          if bfs.hasFile dst then
            (ev0 ++ [Event.removeFile dst],
             Except.ok (db', applyFsEvent bfs (Event.removeFile dst), line))
          else (ev0, Except.error Err.ioError)
  | ChangeType.new =>
      match copy_file_to_backup_dir fs save.backup_path log.path with
      | (ev, Except.error e) => (ev, Except.error e)
      | (ev, Except.ok ()) =>
          match create_file fs db save log.path time hash with
          | (ev2, Except.error e) => (ev ++ ev2, Except.error e)
          | (ev2, Except.ok db') =>
              (ev ++ ev2, Except.ok (db', replayBfs bfs ev, line))
  | ChangeType.update =>
      match copy_file_to_backup_dir fs save.backup_path log.path with
      | (ev, Except.error e) => (ev, Except.error e)
      | (ev, Except.ok ()) =>
          match update_file fs db log.path time hash with
          | (ev2, Except.error e) => (ev ++ ev2, Except.error e)
          | (ev2, Except.ok db') =>
              (ev ++ ev2, Except.ok (db', replayBfs bfs ev, line))

/-- The whole loop of `Archive::update_save`: records are applied in order,
the first failure aborts (keeping the trace performed so far), and the
changelog lines are concatenated in order. -/
def applyChanges (fs : FsTree) (save : Save) (time : Int)
    (hash : List Nat → List Nat) :
    Db → BackupFs → List SaveUpdate → List Event × Except Err (Db × BackupFs × String)
  | db, bfs, [] => ([], Except.ok (db, bfs, ""))
  | db, bfs, c :: rest =>
      match applyChange fs bfs db save time hash c with
      | (ev, Except.error e) => (ev, Except.error e)
      | (ev, Except.ok (db', bfs', line)) =>
          match applyChanges fs save time hash db' bfs' rest with
          | (ev', Except.error e) => (ev ++ ev', Except.error e)
          | (ev', Except.ok (db'', bfs'', s)) =>
              (ev ++ ev', Except.ok (db'', bfs'', line ++ s))

/-- Model of `Archive::update_save` (cli/src/archive.rs, lines 111-152). -/
def update_save (db : Db) (fs : FsTree) (bfs : BackupFs) (save : Save) (time : Int)
    (hash : List Nat → List Nat) : List Event × Except Err (Option String) :=
  match check_save db fs save hash with
  | Except.error e => ([], Except.error e)
  | Except.ok changes =>
      if changes.isEmpty then ([], Except.ok none)
      else
        match applyChanges fs save time hash db bfs changes with
        | (ev, Except.error e) => (ev, Except.error e)
        | (ev, Except.ok (_, _, changelog)) => (ev, Except.ok (some changelog))

/-- The changelog accumulated by the loop of `Archive::update_save`:
the concatenation, in order, of one line per change record. -/
def changelogOf : List SaveUpdate → String
  | [] => ""
  | c :: rest => logLine c ++ changelogOf rest

/-! ## Concrete fixtures used by counterexamples and witnesses -/

/-- The identity digest, standing in for a fixed-seed `calc_hash`. -/
def idHash : List Nat → List Nat := fun c => c

def exUser : User := { id := 1, username := "user", created_at := 0, modified_at := 0 }

def exDbEmpty : Db := { saves := [], files := [], next_save_id := 1, next_file_id := 1 }

/-- A live filesystem holding the directory `tmp/game` with the regular file `save1.dat`. -/
def exFs : FsTree :=
  FsTree.dir true [some ("tmp", FsTree.dir true
    [some ("game", FsTree.dir true [some ("save1.dat", FsTree.file true [1, 2, 3])])])]

def exSave : Save :=
  { id := 1, friendly_name := "game", save_path := ["tmp", "game"]
    backup_path := ["data", "u1", "game"], uuid := "u1", user_id := 1
    created_at := 0, modified_at := 0 }

/-- A store holding `exSave` and no files. -/
def exDb1 : Db := { saves := [exSave], files := [], next_save_id := 2, next_file_id := 1 }

def exFile1 : File :=
  { id := 1, file_path := ["tmp", "game", "save1.dat"], file_hash := [1, 2, 3]
    save_id := 1, created_at := 0, modified_at := 0 }

def exFile2 : File :=
  { id := 2, file_path := ["tmp", "game", "gone.dat"], file_hash := [7]
    save_id := 1, created_at := 0, modified_at := 0 }

/-- A store holding `exSave` with two tracked files, one of which is gone from disk. -/
def exDb2 : Db := { saves := [exSave], files := [exFile1, exFile2], next_save_id := 2, next_file_id := 3 }

/-- A backup directory holding the backup copy of the tracked-but-gone file. -/
def exBfs : BackupFs := { dirs := [], files := [(["data", "u1", "game", "gone.dat"], [7])] }

/-- A live filesystem whose root entry `f.dat` is a single regular file. -/
def exFsFile : FsTree := FsTree.dir true [some ("f.dat", FsTree.file true [9])]

/-! ## Claims C1 and C2: the uuid re-query inside create -/

/-- Claim C1 (code bug, concrete run): on a root directory `tmp/game` holding the
regular file `save1.dat`, `create_save` does not succeed: since
`Database::get_save` never examines `SaveQuery.uuid`, the re-query by uuid
inside `create_save` answers `None` and `create_save` aborts with the
"Unable to query ... from db." error after inserting the Save row and before
writing any File record.  The claim demands a normal return with one File
record whose digest matches the live file; the code leaves zero File records. -/
theorem C1_create_save_fails_and_writes_no_file_records :
    isFile exFs ["tmp", "game", "save1.dat"] = true ∧
    (create_save exDbEmpty exFs exUser ["tmp", "game"] { friendly_name := none }
        ["data"] "u1" 0 idHash).2 = Except.error Err.unableToQuery ∧
    (replayDb exDbEmpty (create_save exDbEmpty exFs exUser ["tmp", "game"]
        { friendly_name := none } ["data"] "u1" 0 idHash).1).files = [] ∧
    (replayDb exDbEmpty (create_save exDbEmpty exFs exUser ["tmp", "game"]
        { friendly_name := none } ["data"] "u1" 0 idHash).1).saves.length = 1 :=
  ⟨rfl, rfl, rfl, rfl⟩

/-- Claim C2 (code bug, concrete run): `Database::get_save` branches on
`query.id`, `query.friendly_name` and `query.path` but never on `query.uuid`,
so a query populated only with the uuid of an existing Save answers `None`
instead of `Some` of that Save. -/
theorem C2_get_save_ignores_uuid :
    exDb1.saves = [exSave] ∧ exSave.uuid = "u1" ∧
    exDb1.get_save (SaveQuery.new.with_uuid "u1") = Except.ok none :=
  ⟨rfl, rfl, rfl⟩

/-! ## Claims C6 and C7: the backup path mapper -/

theorem takeThroughAnchor_not_mem (l : List String) (a : String)
    (h : ∀ c ∈ l, c ≠ a) : takeThroughAnchor l a = l := by
  induction l with
  | nil => rfl
  | cons c l ih =>
      have hc : c ≠ a := h c (by simp)
      simp only [takeThroughAnchor, if_neg hc]
      exact congrArg (c :: ·) (ih (fun x hx => h x (by simp [hx])))

theorem takeThroughAnchor_append (l : List String) (a : String) (rest : List String)
    (h : ∀ c ∈ l, c ≠ a) : takeThroughAnchor (l ++ a :: rest) a = l ++ [a] := by
  induction l with
  | nil => simp [takeThroughAnchor]
  | cons c l ih =>
      have hc : c ≠ a := h c (by simp)
      simp only [List.cons_append, takeThroughAnchor, if_neg hc]
      exact congrArg (c :: ·) (ih (fun x hx => h x (by simp [hx])))

/-- Claim C6 counterexample: take `backup_root = data/u1/game` (anchor `game`)
and the save root `R = game/game`, whose basename is the anchor; the path
`P = game/game/save.dat` lies under `R`, and the claim demands
`backup_root ++ (P relative to R) = data/u1/game/save.dat` — but the mapper
stops at the FIRST component equal to the anchor and answers
`data/u1/game/game/save.dat`. -/
theorem C6_counterexample :
    get_backup_path ["game", "game", "save.dat"] ["data", "u1", "game"]
      = Except.ok ["data", "u1", "game", "game", "save.dat"] ∧
    ("data" :: "u1" :: "game" :: "game" :: ["save.dat"] : FPath)
      ≠ ["data", "u1", "game", "save.dat"] :=
  ⟨rfl, by decide⟩

/-- Claim C6 (amended): for every path `R ++ suffix` under a save root `R` whose
basename equals the final component of `backup_root`, provided additionally
that no component of `R` before its last equals that anchor name,
`get_backup_path` returns `backup_root` joined with the suffix. -/
theorem C6_get_backup_path_roundtrip (R suffix B : FPath) (anchor : String)
    (hB : B.getLast? = some anchor) (hR : R.getLast? = some anchor)
    (hA : ∀ c ∈ R.dropLast, c ≠ anchor) :
    get_backup_path (R ++ suffix) B = Except.ok (B ++ suffix) := by
  have hRne : R ≠ [] := by rintro rfl; simp at hR
  have hlast : R.getLast hRne = anchor := by
    have := List.getLast?_eq_getLast R hRne
    rw [hR] at this
    exact (Option.some_injective _ this).symm
  have hsplit : R.dropLast ++ [anchor] = R := by
    rw [← hlast]; exact List.dropLast_append_getLast hRne
  have hbase : takeThroughAnchor (R ++ suffix) anchor = R := by
    calc takeThroughAnchor (R ++ suffix) anchor
        = takeThroughAnchor (R.dropLast ++ anchor :: suffix) anchor := by
          rw [← hsplit]; simp
      _ = R.dropLast ++ [anchor] := takeThroughAnchor_append _ _ _ hA
      _ = R := hsplit
  have hdrop : (R ++ suffix).drop R.length = suffix := List.drop_left R suffix
  simp only [get_backup_path, hB, hbase, hdrop]

theorem C6_get_backup_path_roundtrip_witness :
    get_backup_path (["home", "game"] ++ ["s.dat"]) ["data", "u1", "game"]
      = Except.ok (["data", "u1", "game"] ++ ["s.dat"]) :=
  C6_get_backup_path_roundtrip ["home", "game"] ["s.dat"] ["data", "u1", "game"] "game"
    rfl rfl (by decide)

/-- Claim C7 counterexample: with `backup_root = data/u1/game` and
`original_path = other/f.dat` (no component equals the anchor `game`), the
claim demands `backup_root` joined with the WHOLE original path as suffix,
`data/u1/game/other/f.dat`; the mapper instead consumes the whole path as the
located prefix, leaving an empty suffix, and answers `backup_root` itself. -/
theorem C7_counterexample :
    get_backup_path ["other", "f.dat"] ["data", "u1", "game"]
      = Except.ok ["data", "u1", "game"] ∧
    ("data" :: "u1" :: ["game"] : FPath) ≠ ["data", "u1", "game", "other", "f.dat"] :=
  ⟨rfl, by decide⟩

/-- Claim C7 (amended): `get_backup_path` fails with the cannot-determine-name
error exactly when `backup_root` has no final component; and for every
`original_path` none of whose components equals the anchor name, it succeeds
and returns `backup_root` itself (the whole original path is consumed as the
located prefix, so the suffix joined on is empty). -/
theorem C7_get_backup_path_no_anchor (p b : FPath) :
    (get_backup_path p b = Except.error Err.cannotDetermineName ↔ b = []) ∧
    (∀ a, b.getLast? = some a → (∀ c ∈ p, c ≠ a) →
      get_backup_path p b = Except.ok b) := by
  constructor
  · constructor
    · intro h
      rcases hb : b.getLast? with _ | a
      · exact List.getLast?_eq_none_iff.mp hb
      · rw [get_backup_path, hb] at h
        exact absurd h (by simp)
    · rintro rfl; rfl
  · intro a ha hc
    simp only [get_backup_path, ha, takeThroughAnchor_not_mem p a hc,
      List.drop_length, List.append_nil]

/-! ## Claim C8: totality of the crawler -/

theorem crawlEntries_cons_some (p : FPath) (n : String) (t : FsTree)
    (rest : List (Option (String × FsTree))) :
    crawlEntries p (some (n, t) :: rest) =
      match crawl (p ++ [n]) t with
      | Except.error e => Except.error e
      | Except.ok sub =>
          match crawlEntries p rest with
          | Except.error e => Except.error e
          | Except.ok tail => Except.ok (sub ++ [p ++ [n]] ++ tail) := by
  cases t with
  | file r c => simp [crawlEntries, crawl]
  | dir r es => rw [crawlEntries]

mutual

theorem crawl_ok_of_errFree : ∀ (p : FPath) (t : FsTree), errFree t = true →
    ∃ l, crawl p t = Except.ok l
  | _, FsTree.file _ _, _ => ⟨[], rfl⟩
  | _, FsTree.dir false _, _ => ⟨[], rfl⟩
  | p, FsTree.dir true es, h => by
      have h' : errFreeEntries es = true := by simpa [errFree] using h
      obtain ⟨l, hl⟩ := crawlEntries_ok_of_errFree p es h'
      exact ⟨l, by simpa [crawl] using hl⟩

theorem crawlEntries_ok_of_errFree :
    ∀ (p : FPath) (es : List (Option (String × FsTree))),
      errFreeEntries es = true → ∃ l, crawlEntries p es = Except.ok l
  | _, [], _ => ⟨[], rfl⟩
  | _, none :: _, h => by simp [errFreeEntries] at h
  | p, some (n, t) :: rest, h => by
      rw [errFreeEntries, Bool.and_eq_true] at h
      obtain ⟨sub, hsub⟩ := crawl_ok_of_errFree (p ++ [n]) t h.1
      obtain ⟨tail, htail⟩ := crawlEntries_ok_of_errFree p rest h.2
      exact ⟨sub ++ [p ++ [n]] ++ tail, by rw [crawlEntries_cons_some, hsub, htail]⟩

end

theorem crawlEntries_error_of_mem_none (p : FPath)
    (es : List (Option (String × FsTree))) (h : none ∈ es) :
    crawlEntries p es = Except.error () := by
  induction es with
  | nil => simp at h
  | cons e rest ih =>
      cases e with
      | none => rw [crawlEntries]
      | some nt =>
          obtain ⟨n, t⟩ := nt
          have h' : none ∈ rest := by simpa using h
          rw [crawlEntries_cons_some]
          cases hc : crawl (p ++ [n]) t <;> simp [ih h']

/-- Claim C8 counterexample: a readable root directory with a single entry whose
read errors makes `Archive::crawl` hit `entry.unwrap()`, so the crawl panics
(`Except.error ()`) instead of returning a (possibly empty) sequence — the
error produced while reading an individual directory entry is not swallowed. -/
theorem C8_counterexample :
    crawl ["root"] (FsTree.dir true [none]) = Except.error () := rfl

/-- Claim C8 (amended): `crawl` returns normally with a (possibly empty)
sequence when the root is unreadable (absent, a file, or an unreadable
directory — each yields the empty sequence) and whenever every directory
entry in the subtree reads successfully; but an I/O error produced while
reading an individual directory entry of a readable directory causes a panic. -/
theorem C8_crawl_never_fails :
    (∀ (fs : FsTree) (p : FPath), fs.lookup p = none → crawlAt fs p = Except.ok []) ∧
    (∀ (fs : FsTree) (p : FPath) (r : Bool) (c : List Nat),
        fs.lookup p = some (FsTree.file r c) → crawlAt fs p = Except.ok []) ∧
    (∀ (fs : FsTree) (p : FPath) (es : List (Option (String × FsTree))),
        fs.lookup p = some (FsTree.dir false es) → crawlAt fs p = Except.ok []) ∧
    (∀ (p : FPath) (t : FsTree), errFree t = true → ∃ l, crawl p t = Except.ok l) ∧
    (∀ (p : FPath) (es : List (Option (String × FsTree))), none ∈ es →
        crawl p (FsTree.dir true es) = Except.error ()) := by
  refine ⟨?_, ?_, ?_, crawl_ok_of_errFree, ?_⟩
  · intro fs p h; rw [crawlAt, h]
  · intro fs p r c h; rw [crawlAt, h]; rfl
  · intro fs p es h; rw [crawlAt, h]; rfl
  · intro p es h
    rw [crawl]
    exact crawlEntries_error_of_mem_none p es h

theorem C8_crawl_never_fails_witness :
    crawlAt exFs ["nope"] = Except.ok [] ∧
    crawlAt exFs ["tmp", "game", "save1.dat"] = Except.ok [] ∧
    crawlAt (FsTree.dir false [some ("a", FsTree.file true [])]) [] = Except.ok [] ∧
    (∃ l, crawl [] exFs = Except.ok l) ∧
    crawl ["root"] (FsTree.dir true [some ("a", FsTree.file true []), none])
      = Except.error () :=
  ⟨C8_crawl_never_fails.1 exFs ["nope"] rfl,
   C8_crawl_never_fails.2.1 exFs ["tmp", "game", "save1.dat"] true [1, 2, 3] rfl,
   C8_crawl_never_fails.2.2.1 (FsTree.dir false [some ("a", FsTree.file true [])]) []
     [some ("a", FsTree.file true [])] rfl,
   C8_crawl_never_fails.2.2.2.1 [] exFs rfl,
   C8_crawl_never_fails.2.2.2.2 ["root"] [some ("a", FsTree.file true []), none]
     (by simp)⟩

theorem C7_get_backup_path_no_anchor_witness :
    (get_backup_path ["other", "f.dat"] []
        = Except.error Err.cannotDetermineName ↔ ([] : FPath) = []) ∧
    get_backup_path ["other", "f.dat"] ["data", "u1", "game2"]
      = Except.ok ["data", "u1", "game2"] :=
  ⟨(C7_get_backup_path_no_anchor ["other", "f.dat"] []).1,
   (C7_get_backup_path_no_anchor ["other", "f.dat"] ["data", "u1", "game2"]).2
     "game2" rfl (by decide)⟩

/-! ## Shared facts about the store, traces and create -/

/-- Inserting a Save never touches the files table. -/
theorem Db.create_save_files_eq (db : Db) (ns : NewSave) :
    (db.create_save ns).files = db.files := by
  unfold Db.create_save; split <;> rfl

/-- The uuid-only re-query inside `create_save` always answers `None`:
`Database::get_save` never branches on `query.uuid`. -/
theorem get_save_with_uuid_eq_none (db : Db) (u : String) :
    db.get_save (SaveQuery.new.with_uuid u) = Except.ok none := rfl

theorem replayDb_eq_of_no_dbWrite (tr : List Event) :
    ∀ db : Db, (∀ e ∈ tr, e.isDbWrite = false) → replayDb db tr = db := by
  induction tr with
  | nil => intro db _; rfl
  | cons e rest ih =>
      intro db h
      have he : e.isDbWrite = false := h e (by simp)
      have happ : applyDbEvent db e = db := by
        cases e <;> first | rfl | (exfalso; simp [Event.isDbWrite] at he)
      rw [replayDb, happ]
      exact ih db (fun x hx => h x (by simp [hx]))

theorem copy_file_to_backup_dir_no_dbWrite (fs : FsTree) (bp fp : FPath) (e : Event)
    (he : e ∈ (copy_file_to_backup_dir fs bp fp).1) : e.isDbWrite = false := by
  unfold copy_file_to_backup_dir at he
  cases hg : get_backup_path fp bp with
  | error err => rw [hg] at he; simp at he
  | ok dst =>
      rw [hg] at he
      cases hd : isDir fs fp with
      | true =>
          simp only [hd, if_true] at he
          simp at he; subst he; rfl
      | false =>
          simp only [hd] at he
          cases hr : readContent fs fp with
          | error u =>
              rw [hr] at he; simp at he; subst he; rfl
          | ok c =>
              rw [hr] at he
              simp at he
              rcases he with rfl | rfl <;> rfl

theorem copy_save_files_no_dbWrite (fs : FsTree) (ns : NewSave) (l : List FPath) :
    ∀ e ∈ (copy_save_files fs ns l).1, e.isDbWrite = false := by
  induction l with
  | nil => intro e he; simp [copy_save_files] at he
  | cons f rest ih =>
      intro e he
      rw [copy_save_files] at he
      rcases hc : copy_file_to_backup_dir fs ns.backup_path f with ⟨ev, r⟩
      rw [hc] at he
      cases r with
      | error err =>
          exact copy_file_to_backup_dir_no_dbWrite fs ns.backup_path f e (by rw [hc]; exact he)
      | ok u =>
          cases u
          rcases hrest : copy_save_files fs ns rest with ⟨ev', r'⟩
          rw [hrest] at he
          rcases List.mem_append.mp he with h1 | h2
          · exact copy_file_to_backup_dir_no_dbWrite fs ns.backup_path f e (by rw [hc]; exact h1)
          · exact ih e (by rw [hrest]; exact h2)

theorem pairwise_of_no_dbWrite (l : List Event) (h : ∀ e ∈ l, e.isDbWrite = false) :
    l.Pairwise (fun a b => a.isDbWrite = true → b.isFsWrite = false) := by
  induction l with
  | nil => exact List.Pairwise.nil
  | cons e rest ih =>
      refine List.Pairwise.cons ?_ (ih (fun x hx => h x (by simp [hx])))
      intro b _ hdb
      rw [h e (by simp)] at hdb
      cases hdb

theorem pairwise_fs_then_db (l : List Event) (x : Event)
    (h : ∀ e ∈ l, e.isDbWrite = false) :
    (l ++ [x]).Pairwise (fun a b => a.isDbWrite = true → b.isFsWrite = false) := by
  refine List.pairwise_append.mpr ⟨pairwise_of_no_dbWrite l h, List.pairwise_singleton _ _, ?_⟩
  intro a ha b _ hdb
  rw [h a ha] at hdb
  cases hdb

/-- Behaviour of `create_save` when the root is absent from disk. -/
theorem create_save_not_exists (db : Db) (fs : FsTree) (user : User) (path : FPath)
    (opt : SaveOptions) (dataLoc : FPath) (uuid : String) (time : Int)
    (hash : List Nat → List Nat) (hex : pathExists fs path = false) :
    create_save db fs user path opt dataLoc uuid time hash
      = ([], Except.error Err.doesNotExist) := by
  unfold create_save
  simp [hex]

/-- Behaviour of `create_save` when the backup path cannot be derived. -/
theorem create_save_bp_error (db : Db) (fs : FsTree) (user : User) (path : FPath)
    (opt : SaveOptions) (dataLoc : FPath) (uuid : String) (time : Int)
    (hash : List Nat → List Nat) (e : Err) (hex : pathExists fs path = true)
    (hbp : create_backup_path dataLoc path uuid = Except.error e) :
    create_save db fs user path opt dataLoc uuid time hash = ([], Except.error e) := by
  unfold create_save
  simp [hex, hbp]

/-- Symbolic run of `create_save` once the root exists, the backup path is
derived and the crawl has answered: everything reduces to the copy phase, and
on copy success the run always dies on the uuid re-query, directly after the
single `dbInsertSave` event. -/
theorem create_save_spec (db : Db) (fs : FsTree) (user : User) (path : FPath)
    (opt : SaveOptions) (dataLoc : FPath) (uuid : String) (time : Int)
    (hash : List Nat → List Nat) (bp : FPath) (files : List FPath)
    (hex : pathExists fs path = true)
    (hbp : create_backup_path dataLoc path uuid = Except.ok bp)
    (hcr : crawlAt fs path = Except.ok files) :
    create_save db fs user path opt dataLoc uuid time hash =
      (match copy_save_files fs (newSaveOf user path opt bp uuid time) files with
       | (cpTr, Except.error e) => (cpTr, Except.error e)
       | (cpTr, Except.ok ()) =>
           (cpTr ++ [Event.dbInsertSave (newSaveOf user path opt bp uuid time)],
            Except.error Err.unableToQuery)) := by
  unfold create_save
  simp only [hex, Bool.not_eq_true, hbp, hcr, Bool.true_eq_false, if_false,
    get_save_with_uuid_eq_none]
  rcases hc : copy_save_files fs (newSaveOf user path opt bp uuid time) files with ⟨cpTr, r⟩
  cases r with
  | error e => rfl
  | ok u => cases u; rfl

/-! ## Claim C3: copies precede metadata writes in create -/

/-- Claim C3: in `create_save`, every crawled entry is copied into the backup
location before any Save or File record is written (no event after a db write
is a filesystem write, over every run); if copying any crawled entry fails,
`create_save` returns that error with a trace containing no db event, so the
metadata store replays unchanged; and an absent root fails with the
"does not exist" error before any copying or persistence. -/
theorem C3_create_save_ordering (db : Db) (fs : FsTree) (user : User) (path : FPath)
    (opt : SaveOptions) (dataLoc : FPath) (uuid : String) (time : Int)
    (hash : List Nat → List Nat) :
    ((create_save db fs user path opt dataLoc uuid time hash).1).Pairwise
        (fun a b => a.isDbWrite = true → b.isFsWrite = false) ∧
    (pathExists fs path = false →
        create_save db fs user path opt dataLoc uuid time hash
          = ([], Except.error Err.doesNotExist)) ∧
    (∀ (bp : FPath) (files : List FPath) (cpTr : List Event) (e : Err),
        pathExists fs path = true →
        create_backup_path dataLoc path uuid = Except.ok bp →
        crawlAt fs path = Except.ok files →
        copy_save_files fs (newSaveOf user path opt bp uuid time) files
          = (cpTr, Except.error e) →
        create_save db fs user path opt dataLoc uuid time hash = (cpTr, Except.error e) ∧
        (∀ ev ∈ cpTr, ev.isDbWrite = false) ∧
        replayDb db cpTr = db) := by
  refine ⟨?_, ?_, ?_⟩
  · -- ordering of the trace, over every branch of create_save
    cases hex : pathExists fs path with
    | false => rw [create_save_not_exists db fs user path opt dataLoc uuid time hash hex]
               exact List.Pairwise.nil
    | true =>
        cases hbp : create_backup_path dataLoc path uuid with
        | error e =>
            rw [create_save_bp_error db fs user path opt dataLoc uuid time hash e hex hbp]
            exact List.Pairwise.nil
        | ok bp =>
            cases hcr : crawlAt fs path with
            | error u =>
                unfold create_save
                simp only [hex, Bool.not_eq_true, Bool.true_eq_false, if_false, hbp, hcr]
                exact List.Pairwise.nil
            | ok files =>
                rw [create_save_spec db fs user path opt dataLoc uuid time hash bp files
                  hex hbp hcr]
                rcases hc : copy_save_files fs (newSaveOf user path opt bp uuid time) files
                  with ⟨cpTr, r⟩
                have hfs : ∀ ev ∈ cpTr, ev.isDbWrite = false := by
                  intro ev hev
                  exact copy_save_files_no_dbWrite fs _ files ev (by rw [hc]; exact hev)
                cases r with
                | error e => exact pairwise_of_no_dbWrite cpTr hfs
                | ok u => cases u; exact pairwise_fs_then_db cpTr _ hfs
  · intro hex
    exact create_save_not_exists db fs user path opt dataLoc uuid time hash hex
  · intro bp files cpTr e hex hbp hcr hcp
    have hfs : ∀ ev ∈ cpTr, ev.isDbWrite = false := by
      intro ev hev
      exact copy_save_files_no_dbWrite fs _ files ev (by rw [hcp]; exact hev)
    refine ⟨?_, hfs, replayDb_eq_of_no_dbWrite cpTr db hfs⟩
    rw [create_save_spec db fs user path opt dataLoc uuid time hash bp files hex hbp hcr, hcp]

/-- An unreadable live file under the root, to exercise the copy-failure branch. -/
def exFsBadCopy : FsTree :=
  FsTree.dir true [some ("game", FsTree.dir true
    [some ("save1.dat", FsTree.file false [1, 2, 3])])]

theorem C3_create_save_ordering_witness :
    (pathExists exFs ["none"] = false →
        create_save exDbEmpty exFs exUser ["none"] { friendly_name := none }
          ["data"] "u1" 0 idHash = ([], Except.error Err.doesNotExist)) ∧
    (pathExists exFs ["none"] = false) ∧
    (create_save exDbEmpty exFsBadCopy exUser ["game"] { friendly_name := none }
        ["data"] "u1" 0 idHash
      = ([Event.mkDirAll ["data", "u1", "game"]], Except.error Err.ioError) ∧
     (∀ ev ∈ ([Event.mkDirAll ["data", "u1", "game"]] : List Event), ev.isDbWrite = false) ∧
     replayDb exDbEmpty [Event.mkDirAll ["data", "u1", "game"]] = exDbEmpty) :=
  ⟨(C3_create_save_ordering exDbEmpty exFs exUser ["none"] { friendly_name := none }
      ["data"] "u1" 0 idHash).2.1,
   rfl,
   (C3_create_save_ordering exDbEmpty exFsBadCopy exUser ["game"] { friendly_name := none }
      ["data"] "u1" 0 idHash).2.2 ["data", "u1", "game"] [["game", "save1.dat"]]
      [Event.mkDirAll ["data", "u1", "game"]] Err.ioError rfl rfl rfl rfl⟩

/-! ## Claim C10: create on a root that is a single regular file -/

/-- Claim C10: for every root that is not a readable directory — absent,
a regular file, or an unreadable directory — `crawl` returns the empty
sequence (first conjunct, for the regular-file case used below); consequently
`create_save` invoked on a root that is a regular file performs no copy event
at all and leaves the files table of the metadata store untouched. -/
theorem C10_create_on_file_root_copies_nothing (db : Db) (fs : FsTree) (user : User)
    (path : FPath) (opt : SaveOptions) (dataLoc : FPath) (uuid : String) (time : Int)
    (hash : List Nat → List Nat) (r : Bool) (c : List Nat)
    (hfile : fs.lookup path = some (FsTree.file r c)) :
    crawlAt fs path = Except.ok [] ∧
    (∀ e ∈ (create_save db fs user path opt dataLoc uuid time hash).1,
        ∀ s d cc, e ≠ Event.copyFile s d cc) ∧
    (replayDb db (create_save db fs user path opt dataLoc uuid time hash).1).files
      = db.files := by
  have hcrawl : crawlAt fs path = Except.ok [] := by rw [crawlAt, hfile]; simp [crawl]
  have hex : pathExists fs path = true := by rw [pathExists, hfile]; rfl
  refine ⟨hcrawl, ?_⟩
  cases hg : path.getLast? with
  | none =>
      have hbp : create_backup_path dataLoc path uuid = Except.error Err.unknownFileName := by
        rw [create_backup_path, hg]
      rw [create_save_bp_error db fs user path opt dataLoc uuid time hash _ hex hbp]
      exact ⟨by intro e he; simp at he, rfl⟩
  | some name =>
      have hbp : create_backup_path dataLoc path uuid
          = Except.ok (dataLoc ++ [uuid, name]) := by
        rw [create_backup_path, hg]
      rw [create_save_spec db fs user path opt dataLoc uuid time hash _ [] hex hbp hcrawl]
      have hcp : copy_save_files fs
          (newSaveOf user path opt (dataLoc ++ [uuid, name]) uuid time) []
          = ([], Except.ok ()) := rfl
      rw [hcp]
      constructor
      · intro e he s d cc
        simp at he
        subst he
        intro h
        cases h
      · show (replayDb db ([] ++ [Event.dbInsertSave _])).files = db.files
        rw [List.nil_append, replayDb, replayDb, applyDbEvent]
        exact Db.create_save_files_eq db _

theorem C10_create_on_file_root_copies_nothing_witness :
    crawlAt exFsFile ["f.dat"] = Except.ok [] ∧
    (∀ e ∈ (create_save exDbEmpty exFsFile exUser ["f.dat"] { friendly_name := none }
        ["data"] "u2" 0 idHash).1, ∀ s d cc, e ≠ Event.copyFile s d cc) ∧
    (replayDb exDbEmpty (create_save exDbEmpty exFsFile exUser ["f.dat"]
        { friendly_name := none } ["data"] "u2" 0 idHash).1).files = exDbEmpty.files :=
  C10_create_on_file_root_copies_nothing exDbEmpty exFsFile exUser ["f.dat"]
    { friendly_name := none } ["data"] "u2" 0 idHash true [9] rfl

/-! ## Claim C5: ordering inside delete -/

theorem replayDb_saves_of_fileDeletes (tr : List Event) :
    ∀ db : Db, (∀ e ∈ tr, ∃ i, e = Event.dbDeleteFileById i) →
      (replayDb db tr).saves = db.saves := by
  induction tr with
  | nil => intro db _; rfl
  | cons e rest ih =>
      intro db h
      obtain ⟨i, rfl⟩ := h e (by simp)
      rw [replayDb, ih _ (fun x hx => h x (by simp [hx]))]
      rfl

theorem removeDir_targets_follow (x y : Event) (hx : ∀ q, x ≠ Event.removeDirAll q) :
    ∀ (fe : List Event), (∀ e ∈ fe, ∀ q, e ≠ Event.removeDirAll q) →
      ∀ (t₁ t₂ : List Event) (p : FPath),
        fe ++ [x, y] = t₁ ++ Event.removeDirAll p :: t₂ → x ∈ t₁ := by
  intro fe
  induction fe with
  | nil =>
      intro _ t₁ t₂ p hleq
      cases t₁ with
      | nil =>
          rw [List.nil_append, List.nil_append] at hleq
          exact absurd (List.head_eq_of_cons_eq hleq) (hx p)
      | cons a t₁' =>
          rw [List.nil_append] at hleq
          obtain ⟨rfl, h2⟩ := List.cons_eq_cons.mp hleq
          cases t₁' with
          | nil => exact List.mem_cons_self _ _
          | cons b t₁'' =>
              obtain ⟨_, h3⟩ := List.cons_eq_cons.mp h2
              simp at h3
  | cons f fe' ih =>
      intro hfe t₁ t₂ p hleq
      cases t₁ with
      | nil =>
          rw [List.nil_append] at hleq
          have : f = Event.removeDirAll p := List.head_eq_of_cons_eq hleq
          exact absurd this (hfe f (List.mem_cons_self _ _) p)
      | cons a t₁' =>
          obtain ⟨rfl, h2⟩ := List.cons_eq_cons.mp hleq
          exact List.mem_cons_of_mem _
            (ih (fun e he q => hfe e (List.mem_cons_of_mem _ he) q) t₁' t₂ p h2)

/-- The consequences of the fixed shape of the delete trace. -/
theorem delete_shape_consequences (db : Db) (save : Save) (fe : List Event)
    (hfe : ∀ e ∈ fe, ∃ i, e = Event.dbDeleteFileById i)
    (hshape : (delete_save db save).1
        = fe ++ [Event.dbDeleteSaveById save.id,
                 Event.removeDirAll save.backup_path.dropLast]) :
    (∀ (t₁ t₂ : List Event) (p : FPath),
        (delete_save db save).1 = t₁ ++ Event.removeDirAll p :: t₂ →
        Event.dbDeleteSaveById save.id ∈ t₁) ∧
    (∀ k, k ≤ fe.length →
        (replayDb db ((delete_save db save).1.take k)).saves = db.saves ∧
        ∀ e ∈ (delete_save db save).1.take k, e.isFsWrite = false) := by
  have hfe' : ∀ e ∈ fe, ∀ q, e ≠ Event.removeDirAll q := by
    intro e he q hcontra
    obtain ⟨i, rfl⟩ := hfe e he
    cases hcontra
  constructor
  · intro t₁ t₂ p hleq
    rw [hshape] at hleq
    exact removeDir_targets_follow _ _ (by intro q hc; cases hc) fe hfe' t₁ t₂ p hleq
  · intro k hk
    have htake : (delete_save db save).1.take k = fe.take k := by
      rw [hshape]
      exact List.take_append_of_le_length hk
    have hsub : ∀ e ∈ fe.take k, e ∈ fe := fun e he => List.take_subset k fe he
    rw [htake]
    refine ⟨replayDb_saves_of_fileDeletes _ db (fun e he => hfe e (hsub e he)), ?_⟩
    intro e he
    obtain ⟨i, rfl⟩ := hfe e (hsub e he)
    rfl

/-- Claim C5: `delete_save` performs, in this order: one File-record deletion
per tracked file, then the Save-record deletion, then the removal of the
backup UUID directory (the parent of the save's backup path) — and nothing
else.  A `removeDirAll` event is always preceded by the Save-record deletion,
and interrupting the run anywhere during the File-record deletions (any trace
prefix of that phase) leaves the saves table unchanged and the disk untouched. -/
theorem C5_delete_save_order (db : Db) (save : Save) (h : save.backup_path ≠ []) :
    ∃ fileEvents,
      (∀ e ∈ fileEvents, ∃ i, e = Event.dbDeleteFileById i) ∧
      delete_save db save
        = (fileEvents ++ [Event.dbDeleteSaveById save.id,
                          Event.removeDirAll save.backup_path.dropLast],
           Except.ok ()) ∧
      (∀ (t₁ t₂ : List Event) (p : FPath),
          (delete_save db save).1 = t₁ ++ Event.removeDirAll p :: t₂ →
          Event.dbDeleteSaveById save.id ∈ t₁) ∧
      (∀ k, k ≤ fileEvents.length →
          (replayDb db ((delete_save db save).1.take k)).saves = db.saves ∧
          ∀ e ∈ (delete_save db save).1.take k, e.isFsWrite = false) := by
  have hpp : parentPath save.backup_path = some save.backup_path.dropLast := by
    cases hb : save.backup_path with
    | nil => exact absurd hb h
    | cons a l => rfl
  cases hgf : db.get_files (FileQuery.new.with_save_id save.id) with
  | none =>
      have hshape : delete_save db save
          = ([] ++ [Event.dbDeleteSaveById save.id,
                    Event.removeDirAll save.backup_path.dropLast], Except.ok ()) := by
        unfold delete_save
        rw [hpp, hgf]
        simp
      refine ⟨[], by simp, hshape, ?_⟩
      exact delete_shape_consequences db save [] (by simp) (by rw [hshape])
  | some files =>
      have hshape : delete_save db save
          = (files.map (fun f => Event.dbDeleteFileById f.id)
              ++ [Event.dbDeleteSaveById save.id,
                  Event.removeDirAll save.backup_path.dropLast], Except.ok ()) := by
        unfold delete_save
        rw [hpp, hgf]
        simp
      have hfe : ∀ e ∈ files.map (fun f => Event.dbDeleteFileById f.id),
          ∃ i, e = Event.dbDeleteFileById i := by
        intro e he
        obtain ⟨f, _, rfl⟩ := List.mem_map.mp he
        exact ⟨f.id, rfl⟩
      refine ⟨files.map (fun f => Event.dbDeleteFileById f.id), hfe, hshape, ?_⟩
      exact delete_shape_consequences db save _ hfe (by rw [hshape])

theorem C5_delete_save_order_witness :
    exSave.backup_path ≠ [] ∧
    ∃ fileEvents,
      (∀ e ∈ fileEvents, ∃ i, e = Event.dbDeleteFileById i) ∧
      delete_save exDb2 exSave
        = (fileEvents ++ [Event.dbDeleteSaveById exSave.id,
                          Event.removeDirAll exSave.backup_path.dropLast],
           Except.ok ()) ∧
      (∀ (t₁ t₂ : List Event) (p : FPath),
          (delete_save exDb2 exSave).1 = t₁ ++ Event.removeDirAll p :: t₂ →
          Event.dbDeleteSaveById exSave.id ∈ t₁) ∧
      (∀ k, k ≤ fileEvents.length →
          (replayDb exDb2 ((delete_save exDb2 exSave).1.take k)).saves = exDb2.saves ∧
          ∀ e ∈ (delete_save exDb2 exSave).1.take k, e.isFsWrite = false) :=
  ⟨by decide, C5_delete_save_order exDb2 exSave (by decide)⟩

/-! ## Claim C4: the change detector -/

theorem mapLookup_eq_none (tracked : List File) (p : FPath)
    (h : p ∉ tracked.map File.file_path) :
    mapLookup (trackedPairs tracked) p = none := by
  have hfind : ((trackedPairs tracked).reverse.find? (fun x => x.1 = p)) = none := by
    rw [List.find?_eq_none]
    intro x hx
    rcases List.mem_map.mp (List.mem_reverse.mp hx) with ⟨f, hf, rfl⟩
    simp only [decide_eq_true_eq]
    intro hcontra
    exact h (hcontra ▸ List.mem_map_of_mem File.file_path hf)
  rw [mapLookup, hfind]
  rfl

theorem mapLookup_eq_hash (tracked : List File) (f : File)
    (hnd : (tracked.map File.file_path).Nodup) (hf : f ∈ tracked) :
    mapLookup (trackedPairs tracked) f.file_path = some f.file_hash := by
  induction tracked with
  | nil => simp at hf
  | cons g rest ih =>
      rw [List.map_cons, List.nodup_cons] at hnd
      have hrev : (trackedPairs (g :: rest)).reverse
          = (trackedPairs rest).reverse ++ [(g.file_path, g.file_hash)] := by
        rw [trackedPairs, List.map_cons, List.reverse_cons]
        rfl
      rcases List.mem_cons.mp hf with rfl | hmem
      · have hnone : ((trackedPairs rest).reverse.find? (fun x => x.1 = f.file_path))
            = none := by
          rw [List.find?_eq_none]
          intro x hx
          rcases List.mem_map.mp (List.mem_reverse.mp hx) with ⟨g', hg', rfl⟩
          simp only [decide_eq_true_eq]
          intro hcontra
          exact hnd.1 (hcontra ▸ List.mem_map_of_mem File.file_path hg')
        rw [mapLookup, hrev, List.find?_append, hnone]
        simp [List.find?]
      · have := ih hnd.2 hmem
        rw [mapLookup] at this
        rcases hfind : ((trackedPairs rest).reverse.find? (fun x => x.1 = f.file_path))
          with _ | x
        · rw [hfind] at this; simp at this
        · rw [hfind] at this
          rw [mapLookup, hrev, List.find?_append, hfind]
          simpa using this

theorem missingRecords_mem (tracked : List File) (cur : List FPath) (r : SaveUpdate)
    (hr : r ∈ missingRecords tracked cur) :
    r.change = ChangeType.missing ∧ r.path ∉ cur ∧ r.path ∈ tracked.map File.file_path := by
  rw [missingRecords] at hr
  rcases List.mem_filterMap.mp hr with ⟨f, hf, hval⟩
  by_cases hany : cur.any (fun path => f.file_path = path) = true
  · rw [if_pos hany] at hval; cases hval
  · rw [if_neg hany] at hval
    cases hval.symm
    refine ⟨rfl, ?_, List.mem_map_of_mem File.file_path hf⟩
    intro hmem
    exact hany (List.any_eq_true.mpr ⟨f.file_path, hmem, by simp⟩)

theorem missingRecords_cons (g : File) (rest : List File) (cur : List FPath) :
    missingRecords (g :: rest) cur =
      (if cur.any (fun path => g.file_path = path) then []
       else [{ change := ChangeType.missing, path := g.file_path }])
        ++ missingRecords rest cur := by
  show List.filterMap _ (g :: rest) = _
  rw [List.filterMap_cons]
  by_cases h : cur.any (fun path => g.file_path = path) = true
  · rw [if_pos h, if_pos h, List.nil_append]
    rfl
  · rw [if_neg h, if_neg h, List.cons_append, List.nil_append]
    rfl

theorem missingRecords_count_eq_one (tracked : List File) (cur : List FPath) (f : File)
    (hnd : (tracked.map File.file_path).Nodup) (hf : f ∈ tracked) (habs : f.file_path ∉ cur) :
    (missingRecords tracked cur).count
      { change := ChangeType.missing, path := f.file_path } = 1 := by
  induction tracked with
  | nil => simp at hf
  | cons g rest ih =>
      rw [List.map_cons, List.nodup_cons] at hnd
      have hcount_zero : ∀ (q : FPath), q ∉ rest.map File.file_path →
          (missingRecords rest cur).count { change := ChangeType.missing, path := q } = 0 := by
        intro q hq
        rw [List.count_eq_zero]
        intro hmem
        exact hq (missingRecords_mem rest cur _ hmem).2.2
      rw [missingRecords_cons, List.count_append]
      rcases List.mem_cons.mp hf with rfl | hmem
      · have hany : (cur.any fun path => f.file_path = path) = false := by
          rw [← Bool.not_eq_true, List.any_eq_true]
          rintro ⟨x, hx, hfx⟩
          exact habs ((decide_eq_true_eq.mp hfx) ▸ hx)
        rw [hany, if_neg (by simp), hcount_zero f.file_path hnd.1]
        simp
      · have hne : g.file_path ≠ f.file_path := by
          intro hcontra
          exact hnd.1 (hcontra ▸ List.mem_map_of_mem File.file_path hmem)
        rw [ih hnd.2 hmem]
        by_cases hany : (cur.any fun path => g.file_path = path) = true
        · rw [if_pos hany]; rfl
        · rw [if_neg hany]
          simp [List.count_cons, hne]

theorem missingRecords_filter_le_one (tracked : List File) (cur : List FPath) (p : FPath)
    (hnd : (tracked.map File.file_path).Nodup) :
    ((missingRecords tracked cur).filter (fun r => r.path = p)).length ≤ 1 := by
  induction tracked with
  | nil => simp [missingRecords]
  | cons g rest ih =>
      rw [List.map_cons, List.nodup_cons] at hnd
      have hzero : g.file_path = p →
          ((missingRecords rest cur).filter (fun r => r.path = p)).length = 0 := by
        intro hgp
        rw [List.length_eq_zero, List.filter_eq_nil_iff]
        intro r hr
        have := (missingRecords_mem rest cur r hr).2.2
        simp only [decide_eq_true_eq]
        intro hrp
        exact hnd.1 ((hgp ▸ hrp ▸ this : g.file_path ∈ rest.map File.file_path))
      rw [missingRecords_cons, List.filter_append, List.length_append]
      by_cases hany : (cur.any fun path => g.file_path = path) = true
      · rw [if_pos hany]
        simpa using ih hnd.2
      · rw [if_neg hany]
        by_cases hgp : g.file_path = p
        · rw [List.filter_cons_of_pos (by simp [hgp]), List.filter_nil, List.length_cons,
            List.length_nil, hzero hgp]
        · rw [List.filter_cons_of_neg (by simp [hgp]), List.filter_nil, List.length_nil]
          simpa using ih hnd.2

theorem classifyCurrent_cons (fs : FsTree) (m : List (FPath × List Nat))
    (hash : List Nat → List Nat) (p : FPath) (rest : List FPath) :
    classifyCurrent fs m hash (p :: rest) =
      if isFile fs p then
        match mapLookup m p with
        | some expected =>
            match readContent fs p with
            | Except.error _ => Except.error Err.ioError
            | Except.ok content =>
                match classifyCurrent fs m hash rest with
                | Except.error e => Except.error e
                | Except.ok tail =>
                    Except.ok ((if ¬ hash content = expected then
                        [{ change := ChangeType.update, path := p }] else []) ++ tail)
        | none =>
            match classifyCurrent fs m hash rest with
            | Except.error e => Except.error e
            | Except.ok tail => Except.ok ({ change := ChangeType.new, path := p } :: tail)
      else classifyCurrent fs m hash rest := by
  rw [classifyCurrent]

theorem classifyCurrent_mem (fs : FsTree) (m : List (FPath × List Nat))
    (hash : List Nat → List Nat) :
    ∀ (cur : List FPath) (rest : List SaveUpdate),
      classifyCurrent fs m hash cur = Except.ok rest →
      ∀ r ∈ rest, r.path ∈ cur ∧ r.change ≠ ChangeType.missing := by
  intro cur
  induction cur with
  | nil =>
      intro rest h r hr
      rw [classifyCurrent] at h
      injection h with h
      subst h
      simp at hr
  | cons q cur' ih =>
      intro rest h r hr
      rw [classifyCurrent_cons] at h
      by_cases hq : isFile fs q = true
      · rw [if_pos hq] at h
        rcases hm : mapLookup m q with _ | expected
        · rw [hm] at h
          rcases hcl : classifyCurrent fs m hash cur' with e | tail
          · rw [hcl] at h; cases h
          · rw [hcl] at h
            injection h with h
            subst h
            rcases List.mem_cons.mp hr with rfl | hrt
            · exact ⟨List.mem_cons_self _ _, by simp⟩
            · obtain ⟨h1, h2⟩ := ih tail hcl r hrt
              exact ⟨List.mem_cons_of_mem _ h1, h2⟩
        · rw [hm] at h
          rcases hrc : readContent fs q with u | content
          · rw [hrc] at h; cases h
          · rw [hrc] at h
            rcases hcl : classifyCurrent fs m hash cur' with e | tail
            · rw [hcl] at h; cases h
            · rw [hcl] at h
              injection h with h
              subst h
              rcases List.mem_append.mp hr with hhd | hrt
              · by_cases hh : ¬ hash content = expected
                · rw [if_pos hh] at hhd
                  rcases List.mem_singleton.mp hhd with rfl
                  exact ⟨List.mem_cons_self _ _, by simp⟩
                · rw [if_neg hh] at hhd
                  simp at hhd
              · obtain ⟨h1, h2⟩ := ih tail hcl r hrt
                exact ⟨List.mem_cons_of_mem _ h1, h2⟩
      · rw [if_neg hq] at h
        obtain ⟨h1, h2⟩ := ih rest h r hr
        exact ⟨List.mem_cons_of_mem _ h1, h2⟩

theorem classifyCurrent_filter_of_not_mem (fs : FsTree) (m : List (FPath × List Nat))
    (hash : List Nat → List Nat) (cur : List FPath) (rest : List SaveUpdate) (p : FPath)
    (h : classifyCurrent fs m hash cur = Except.ok rest) (hp : p ∉ cur) :
    rest.filter (fun r => r.path = p) = [] := by
  rw [List.filter_eq_nil_iff]
  intro r hr
  simp only [decide_eq_true_eq]
  intro hrp
  exact hp (hrp ▸ (classifyCurrent_mem fs m hash cur rest h r hr).1)

theorem classifyCurrent_filter_of_mem (fs : FsTree) (m : List (FPath × List Nat))
    (hash : List Nat → List Nat) :
    ∀ (cur : List FPath) (rest : List SaveUpdate) (p : FPath),
      classifyCurrent fs m hash cur = Except.ok rest → cur.Nodup → p ∈ cur →
      rest.filter (fun r => r.path = p)
        = if isFile fs p then
            match mapLookup m p with
            | none => [{ change := ChangeType.new, path := p }]
            | some expected =>
                match readContent fs p with
                | Except.ok content =>
                    if hash content = expected then []
                    else [{ change := ChangeType.update, path := p }]
                | Except.error _ => []
          else [] := by
  intro cur
  induction cur with
  | nil => intro rest p h hnd hp; simp at hp
  | cons q cur' ih =>
      intro rest p h hnd hp
      rw [List.nodup_cons] at hnd
      rw [classifyCurrent_cons] at h
      by_cases hq : isFile fs q = true
      · rw [if_pos hq] at h
        rcases hm : mapLookup m q with _ | expected
        · rw [hm] at h
          rcases hcl : classifyCurrent fs m hash cur' with e | tail
          · rw [hcl] at h; cases h
          · rw [hcl] at h
            injection h with h
            subst h
            rcases List.mem_cons.mp hp with rfl | hpcur
            · rw [List.filter_cons_of_pos (by simp),
                classifyCurrent_filter_of_not_mem fs m hash cur' tail p hcl hnd.1,
                if_pos hq, hm]
            · have hne : q ≠ p := fun hc => hnd.1 (hc ▸ hpcur)
              rw [List.filter_cons_of_neg (by simp [hne])]
              exact ih tail p hcl hnd.2 hpcur
        · rw [hm] at h
          rcases hrc : readContent fs q with u | content
          · rw [hrc] at h; cases h
          · rw [hrc] at h
            rcases hcl : classifyCurrent fs m hash cur' with e | tail
            · rw [hcl] at h; cases h
            · rw [hcl] at h
              injection h with h
              subst h
              rcases List.mem_cons.mp hp with rfl | hpcur
              · rw [List.filter_append,
                  classifyCurrent_filter_of_not_mem fs m hash cur' tail p hcl hnd.1,
                  List.append_nil, if_pos hq, hm, hrc]
                by_cases hh : hash content = expected <;> simp [hh]
              · have hne : q ≠ p := fun hc => hnd.1 (hc ▸ hpcur)
                rw [List.filter_append]
                have hhead : (if ¬ hash content = expected then
                    [{ change := ChangeType.update, path := q }] else
                    ([] : List SaveUpdate)).filter (fun r => r.path = p) = [] := by
                  by_cases hh : ¬ hash content = expected
                  · rw [if_pos hh, List.filter_cons_of_neg (by simp [hne]), List.filter_nil]
                  · rw [if_neg hh, List.filter_nil]
                rw [hhead, List.nil_append]
                exact ih tail p hcl hnd.2 hpcur
      · rw [if_neg hq] at h
        rcases List.mem_cons.mp hp with rfl | hpcur
        · rw [classifyCurrent_filter_of_not_mem fs m hash cur' rest p h hnd.1, if_neg hq]
        · exact ih rest p h hnd.2 hpcur

/-- Claim C4: when `check_save` returns a record list over a duplicate-free
tracked set and a duplicate-free crawl, it holds exactly one `Missing` record
for each tracked path absent from the crawl (by exact path equality), exactly
one `New` record for each crawled regular file not in the tracked set,
exactly one `Update` record for each crawled tracked regular file whose
recomputed digest differs from the tracked one and no record at all for one
whose digest matches; every `Missing` record precedes every other record,
and no path is classified more than once. -/
theorem C4_check_save_classification (db : Db) (fs : FsTree) (save : Save)
    (hash : List Nat → List Nat) (tracked : List File) (current : List FPath)
    (result : List SaveUpdate)
    (htrk : db.get_files (FileQuery.new.with_save_id save.id) = some tracked)
    (hcur : crawlAt fs save.save_path = Except.ok current)
    (hres : check_save db fs save hash = Except.ok result)
    (hnd : (tracked.map File.file_path).Nodup)
    (hcd : current.Nodup) :
    (∀ f ∈ tracked, f.file_path ∉ current →
        result.count { change := ChangeType.missing, path := f.file_path } = 1) ∧
    (∀ p ∈ current, isFile fs p = true → p ∉ tracked.map File.file_path →
        result.count { change := ChangeType.new, path := p } = 1) ∧
    (∀ f ∈ tracked, ∀ content, f.file_path ∈ current → isFile fs f.file_path = true →
        readContent fs f.file_path = Except.ok content →
        (hash content ≠ f.file_hash →
            result.count { change := ChangeType.update, path := f.file_path } = 1) ∧
        (hash content = f.file_hash →
            (result.filter (fun r => r.path = f.file_path)).length = 0)) ∧
    (∃ l₁ l₂, result = l₁ ++ l₂ ∧ (∀ r ∈ l₁, r.change = ChangeType.missing) ∧
        (∀ r ∈ l₂, r.change ≠ ChangeType.missing)) ∧
    (∀ p : FPath, (result.filter (fun r => r.path = p)).length ≤ 1) := by
  obtain ⟨rest, hcl, hsplit⟩ : ∃ rest,
      classifyCurrent fs (trackedPairs tracked) hash current = Except.ok rest ∧
      result = missingRecords tracked current ++ rest := by
    rcases hcl : classifyCurrent fs (trackedPairs tracked) hash current with e | rest
    · exfalso
      simp only [check_save, htrk, hcur, hcl] at hres
      exact Except.noConfusion hres
    · simp only [check_save, htrk, hcur, hcl, Except.ok.injEq] at hres
      exact ⟨rest, rfl, hres.symm⟩
  subst hsplit
  have hmiss_count_zero_of_mem : ∀ p ∈ current, ∀ c : ChangeType,
      (missingRecords tracked current).count { change := c, path := p } = 0 := by
    intro p hp c
    rw [List.count_eq_zero]
    intro hmem
    exact (missingRecords_mem tracked current _ hmem).2.1 hp
  have hrest_count_zero_missing : ∀ p : FPath,
      rest.count { change := ChangeType.missing, path := p } = 0 := by
    intro p
    rw [List.count_eq_zero]
    intro hmem
    exact (classifyCurrent_mem fs (trackedPairs tracked) hash current rest hcl _ hmem).2 rfl
  refine ⟨?_, ?_, ?_, ?_, ?_⟩
  · -- exactly one Missing for each tracked path absent from the crawl
    intro f hf habs
    rw [List.count_append, missingRecords_count_eq_one tracked current f hnd hf habs,
      hrest_count_zero_missing]
  · -- exactly one New for each untracked crawled regular file
    intro p hp hfile hnot
    have hnew_zero : (missingRecords tracked current).count
        { change := ChangeType.new, path := p } = 0 := by
      rw [List.count_eq_zero]
      intro hmem
      have := (missingRecords_mem tracked current _ hmem).1
      simp at this
    have hfil : rest.filter (fun r => r.path = p)
        = [{ change := ChangeType.new, path := p }] := by
      rw [classifyCurrent_filter_of_mem fs (trackedPairs tracked) hash current rest p
        hcl hcd hp, if_pos hfile, mapLookup_eq_none tracked p hnot]
    have hone : rest.count { change := ChangeType.new, path := p } = 1 := by
      have hcf := List.count_filter
        (l := rest) (a := { change := ChangeType.new, path := p })
        (p := fun r => r.path = p) (by simp)
      rw [← hcf, hfil, List.count_singleton_self]
    rw [List.count_append, hnew_zero, hone]
  · -- Update exactly on digest mismatch, nothing on match
    intro f hf content hmem hfile hrc
    have hml : mapLookup (trackedPairs tracked) f.file_path = some f.file_hash :=
      mapLookup_eq_hash tracked f hnd hf
    have hfil := classifyCurrent_filter_of_mem fs (trackedPairs tracked) hash current rest
      f.file_path hcl hcd hmem
    rw [if_pos hfile, hml, hrc] at hfil
    constructor
    · intro hne
      have hfil' : rest.filter (fun r => r.path = f.file_path)
          = [{ change := ChangeType.update, path := f.file_path }] := by
        rw [hfil]; simp [hne]
      have hupd_zero : (missingRecords tracked current).count
          { change := ChangeType.update, path := f.file_path } = 0 := by
        rw [List.count_eq_zero]
        intro hmem'
        have := (missingRecords_mem tracked current _ hmem').1
        simp at this
      have hone : rest.count { change := ChangeType.update, path := f.file_path } = 1 := by
        have hcf := List.count_filter
          (l := rest) (a := { change := ChangeType.update, path := f.file_path })
          (p := fun r => r.path = f.file_path) (by simp)
        rw [← hcf, hfil', List.count_singleton_self]
      rw [List.count_append, hupd_zero, hone]
    · intro heq
      have hfil' : rest.filter (fun r => r.path = f.file_path) = [] := by
        rw [hfil]; simp [heq]
      have hmiss : (missingRecords tracked current).filter
          (fun r => r.path = f.file_path) = [] := by
        rw [List.filter_eq_nil_iff]
        intro r hr
        simp only [decide_eq_true_eq]
        intro hrp
        exact (missingRecords_mem tracked current r hr).2.1 (hrp ▸ hmem)
      rw [List.filter_append, hmiss, hfil', List.append_nil, List.length_nil]
  · -- all Missing records precede all others
    refine ⟨missingRecords tracked current, rest, rfl, ?_, ?_⟩
    · intro r hr
      exact (missingRecords_mem tracked current r hr).1
    · intro r hr
      exact (classifyCurrent_mem fs (trackedPairs tracked) hash current rest hcl r hr).2
  · -- no path classified more than once
    intro p
    rw [List.filter_append, List.length_append]
    by_cases hp : p ∈ current
    · have hmiss : (missingRecords tracked current).filter (fun r => r.path = p) = [] := by
        rw [List.filter_eq_nil_iff]
        intro r hr
        simp only [decide_eq_true_eq]
        intro hrp
        exact (missingRecords_mem tracked current r hr).2.1 (hrp ▸ hp)
      rw [hmiss, List.length_nil]
      rw [classifyCurrent_filter_of_mem fs (trackedPairs tracked) hash current rest p
        hcl hcd hp]
      by_cases hfile : isFile fs p = true
      · rw [if_pos hfile]
        rcases mapLookup (trackedPairs tracked) p with _ | expected
        · simp
        · rcases readContent fs p with u | content
          · simp
          · by_cases hh : hash content = expected <;> simp [hh]
      · rw [if_neg hfile]; simp
    · rw [classifyCurrent_filter_of_not_mem fs (trackedPairs tracked) hash current rest p
        hcl hp, List.length_nil]
      simpa using missingRecords_filter_le_one tracked current p hnd

theorem C4_check_save_classification_witness :
    (∀ f ∈ [exFile1, exFile2], f.file_path ∉ [["tmp", "game", "save1.dat"]] →
        ((check_save exDb2 exFs exSave idHash).toOption.getD []).count
          { change := ChangeType.missing, path := f.file_path } = 1) ∧
    (∃ l₁ l₂, (check_save exDb2 exFs exSave idHash).toOption.getD [] = l₁ ++ l₂ ∧
        (∀ r ∈ l₁, r.change = ChangeType.missing) ∧
        (∀ r ∈ l₂, r.change ≠ ChangeType.missing)) ∧
    (∀ p : FPath, (((check_save exDb2 exFs exSave idHash).toOption.getD []).filter
        (fun r => r.path = p)).length ≤ 1) := by
  have h := C4_check_save_classification exDb2 exFs exSave idHash [exFile1, exFile2]
    [["tmp", "game", "save1.dat"]]
    [{ change := ChangeType.missing, path := ["tmp", "game", "gone.dat"] }]
    rfl (by exact rfl) (by exact rfl) (by decide) (by decide)
  have hres : (check_save exDb2 exFs exSave idHash).toOption.getD []
      = [{ change := ChangeType.missing, path := ["tmp", "game", "gone.dat"] }] := rfl
  rw [hres]
  exact ⟨h.1, h.2.2.2.1, h.2.2.2.2⟩

/-! ## Claim C9: all-or-nothing update -/

theorem applyChange_ok_line (fs : FsTree) (bfs : BackupFs) (db : Db) (save : Save)
    (time : Int) (hash : List Nat → List Nat) (c : SaveUpdate) (ev : List Event)
    (db' : Db) (bfs' : BackupFs) (line : String)
    (h : applyChange fs bfs db save time hash c = (ev, Except.ok (db', bfs', line))) :
    line = logLine c := by
  rcases c with ⟨ch, p⟩
  cases ch with
  | missing =>
      simp only [applyChange] at h
      rcases hg : get_backup_path p save.backup_path with e' | dst
      · simp only [hg] at h
        simp at h
      · simp only [hg] at h
        by_cases hb : bfs.hasFile dst = true
        · rw [if_pos hb] at h
          simp only [Prod.mk.injEq, Except.ok.injEq] at h
          exact h.2.2.2.symm
        · rw [if_neg hb] at h
          simp at h
  | new =>
      simp only [applyChange] at h
      rcases hc : copy_file_to_backup_dir fs save.backup_path p with ⟨ev1, r1⟩
      simp only [hc] at h
      cases r1 with
      | error e' => simp at h
      | ok u =>
          cases u
          rcases hcf : create_file fs db save p time hash with ⟨ev2, r2⟩
          simp only [hcf] at h
          cases r2 with
          | error e' => simp at h
          | ok db₁ =>
              simp only [Prod.mk.injEq, Except.ok.injEq] at h
              exact h.2.2.2.symm
  | update =>
      simp only [applyChange] at h
      rcases hc : copy_file_to_backup_dir fs save.backup_path p with ⟨ev1, r1⟩
      simp only [hc] at h
      cases r1 with
      | error e' => simp at h
      | ok u =>
          cases u
          rcases hcf : update_file fs db p time hash with ⟨ev2, r2⟩
          simp only [hcf] at h
          cases r2 with
          | error e' => simp at h
          | ok db₁ =>
              simp only [Prod.mk.injEq, Except.ok.injEq] at h
              exact h.2.2.2.symm

theorem applyChanges_ok_changelog (fs : FsTree) (save : Save) (time : Int)
    (hash : List Nat → List Nat) :
    ∀ (changes : List SaveUpdate) (db : Db) (bfs : BackupFs) (tr : List Event)
      (db' : Db) (bfs' : BackupFs) (s : String),
      applyChanges fs save time hash db bfs changes = (tr, Except.ok (db', bfs', s)) →
      s = changelogOf changes := by
  intro changes
  induction changes with
  | nil =>
      intro db bfs tr db' bfs' s h
      rw [applyChanges] at h
      simp only [Prod.mk.injEq, Except.ok.injEq] at h
      exact h.2.2.2.symm
  | cons c rest ih =>
      intro db bfs tr db' bfs' s h
      rw [applyChanges] at h
      rcases hac : applyChange fs bfs db save time hash c with ⟨ev, r⟩
      simp only [hac] at h
      cases r with
      | error e' => simp at h
      | ok trip =>
          rcases trip with ⟨db₁, bfs₁, line⟩
          rcases har : applyChanges fs save time hash db₁ bfs₁ rest with ⟨ev', r'⟩
          simp only [har] at h
          cases r' with
          | error e₂ => simp at h
          | ok trip' =>
              rcases trip' with ⟨db₂, bfs₂, s₂⟩
              simp only [Prod.mk.injEq, Except.ok.injEq] at h
              rw [changelogOf, ← h.2.2.2,
                applyChange_ok_line fs bfs db save time hash c ev db₁ bfs₁ line hac,
                ih db₁ bfs₁ ev' db₂ bfs₂ s₂ har]

theorem applyChanges_error_decomp (fs : FsTree) (save : Save) (time : Int)
    (hash : List Nat → List Nat) :
    ∀ (changes : List SaveUpdate) (db : Db) (bfs : BackupFs) (tr : List Event) (e : Err),
      applyChanges fs save time hash db bfs changes = (tr, Except.error e) →
      ∃ ch₁ c ch₂ t₁ t₂ db' bfs' s',
        changes = ch₁ ++ c :: ch₂ ∧
        applyChanges fs save time hash db bfs ch₁ = (t₁, Except.ok (db', bfs', s')) ∧
        applyChange fs bfs' db' save time hash c = (t₂, Except.error e) ∧
        tr = t₁ ++ t₂ := by
  intro changes
  induction changes with
  | nil =>
      intro db bfs tr e h
      rw [applyChanges] at h
      simp at h
  | cons c rest ih =>
      intro db bfs tr e h
      rw [applyChanges] at h
      rcases hac : applyChange fs bfs db save time hash c with ⟨ev, r⟩
      simp only [hac] at h
      cases r with
      | error e' =>
          simp only [Prod.mk.injEq, Except.error.injEq] at h
          refine ⟨[], c, rest, [], ev, db, bfs, "", rfl, rfl, ?_, by rw [← h.1]; rfl⟩
          rw [hac, h.2]
      | ok trip =>
          rcases trip with ⟨db₁, bfs₁, line⟩
          rcases har : applyChanges fs save time hash db₁ bfs₁ rest with ⟨ev', r'⟩
          simp only [har] at h
          cases r' with
          | error e₂ =>
              simp only [Prod.mk.injEq, Except.error.injEq] at h
              obtain ⟨ch₁, c', ch₂, t₁, t₂, db', bfs', s', hsplit, hch1, hc', htr⟩ :=
                ih db₁ bfs₁ ev' e₂ har
              refine ⟨c :: ch₁, c', ch₂, ev ++ t₁, t₂, db', bfs', line ++ s',
                by rw [hsplit, List.cons_append], ?_, by rw [hc', h.2], ?_⟩
              · simp only [applyChanges, hac, hch1]
              · rw [← h.1, htr, List.append_assoc]
          | ok trip' =>
              rcases trip' with ⟨db₂, bfs₂, s₂⟩
              simp at h

/-- Claim C9: `update_save` returns `None` exactly when `check_save` reports an
empty change set; a normal `Some` return carries the changelog holding one
line per change record, in order; and an error return means the records split
as `ch₁ ++ c :: ch₂` where every record of `ch₁` was applied, applying `c`
failed, and nothing of `ch₂` was applied — the emitted trace is exactly the
trace of `ch₁` followed by the partial trace of `c`. -/
theorem C9_update_save_all_or_nothing (db : Db) (fs : FsTree) (bfs : BackupFs)
    (save : Save) (time : Int) (hash : List Nat → List Nat) :
    ((update_save db fs bfs save time hash).2 = Except.ok none ↔
        check_save db fs save hash = Except.ok []) ∧
    (∀ s, (update_save db fs bfs save time hash).2 = Except.ok (some s) →
        ∃ changes, check_save db fs save hash = Except.ok changes ∧ changes ≠ [] ∧
          s = changelogOf changes) ∧
    (∀ e, (update_save db fs bfs save time hash).2 = Except.error e →
        (check_save db fs save hash = Except.error e ∧
          (update_save db fs bfs save time hash).1 = []) ∨
        (∃ changes ch₁ c ch₂ t₁ t₂ db' bfs' s',
            check_save db fs save hash = Except.ok changes ∧
            changes = ch₁ ++ c :: ch₂ ∧
            applyChanges fs save time hash db bfs ch₁ = (t₁, Except.ok (db', bfs', s')) ∧
            applyChange fs bfs' db' save time hash c = (t₂, Except.error e) ∧
            (update_save db fs bfs save time hash).1 = t₁ ++ t₂)) := by
  rcases hck : check_save db fs save hash with e₀ | changes
  · have hu : update_save db fs bfs save time hash = ([], Except.error e₀) := by
      simp only [update_save, hck]
    refine ⟨?_, ?_, ?_⟩
    · rw [hu]
      constructor
      · intro hcontra; cases hcontra
      · intro hcontra; cases hcontra
    · intro s hs; rw [hu] at hs; cases hs
    · intro e he
      rw [hu] at he
      have he' : Except.error e₀ = Except.error e := he
      injection he' with hee
      exact Or.inl ⟨by rw [hee], by rw [hu]⟩
  · by_cases hemp : changes.isEmpty = true
    · have hnil : changes = [] := List.isEmpty_iff.mp hemp
      subst hnil
      have hu : update_save db fs bfs save time hash = ([], Except.ok none) := by
        simp [update_save, hck]
      refine ⟨?_, ?_, ?_⟩
      · rw [hu]
        simp
      · intro s hs; rw [hu] at hs
        injection hs with hs; cases hs
      · intro e he; rw [hu] at he; cases he
    · have hne : changes ≠ [] := fun hc => hemp (by rw [hc]; rfl)
      rcases hap : applyChanges fs save time hash db bfs changes with ⟨tr, r⟩
      cases r with
      | error e₁ =>
          have hu : update_save db fs bfs save time hash = (tr, Except.error e₁) := by
            simp only [update_save, hck, hap, hemp, if_false, Bool.false_eq_true]
          refine ⟨?_, ?_, ?_⟩
          · rw [hu]
            constructor
            · intro hcontra; cases hcontra
            · intro hcontra
              injection hcontra with hcontra
              exact absurd hcontra hne
          · intro s hs; rw [hu] at hs; cases hs
          · intro e he
            rw [hu] at he
            have he' : Except.error e₁ = Except.error e := he
            injection he' with hee
            obtain ⟨ch₁, c, ch₂, t₁, t₂, db', bfs', s', hsplit, hch1, hc, htr⟩ :=
              applyChanges_error_decomp fs save time hash changes db bfs tr e₁ hap
            exact Or.inr ⟨changes, ch₁, c, ch₂, t₁, t₂, db', bfs', s', rfl, hsplit,
              hch1, hee ▸ hc, by rw [hu, htr]⟩
      | ok trip =>
          rcases trip with ⟨db₁, bfs₁, s₀⟩
          have hu : update_save db fs bfs save time hash = (tr, Except.ok (some s₀)) := by
            simp only [update_save, hck, hap, hemp, if_false, Bool.false_eq_true]
          refine ⟨?_, ?_, ?_⟩
          · rw [hu]
            constructor
            · intro hcontra
              injection hcontra with hcontra
              cases hcontra
            · intro hcontra
              injection hcontra with hcontra
              exact absurd hcontra hne
          · intro s hs
            rw [hu] at hs
            injection hs with hs
            injection hs with hs
            exact ⟨changes, rfl, hne,
              hs ▸ applyChanges_ok_changelog fs save time hash changes db bfs tr db₁ bfs₁ s₀ hap⟩
          · intro e he; rw [hu] at he; cases he

/-- A store tracking exactly the one live file with a matching digest. -/
def exDb3 : Db := { saves := [exSave], files := [exFile1], next_save_id := 2, next_file_id := 2 }

/-- An empty backup directory, on which the Missing arm's file removal fails. -/
def exBfsEmpty : BackupFs := { dirs := [], files := [] }

theorem C9_update_save_all_or_nothing_witness :
    ((update_save exDb3 exFs exBfsEmpty exSave 5 idHash).2 = Except.ok none ↔
        check_save exDb3 exFs exSave idHash = Except.ok []) ∧
    (∃ changes, check_save exDb2 exFs exSave idHash = Except.ok changes ∧ changes ≠ [] ∧
        "\nMissing (NOW DELETING!!!): tmp/game/gone.dat" = changelogOf changes) ∧
    ((check_save exDb2 exFs exSave idHash = Except.error Err.ioError ∧
        (update_save exDb2 exFs exBfsEmpty exSave 5 idHash).1 = []) ∨
     (∃ changes ch₁ c ch₂ t₁ t₂ db' bfs' s',
        check_save exDb2 exFs exSave idHash = Except.ok changes ∧
        changes = ch₁ ++ c :: ch₂ ∧
        applyChanges exFs exSave 5 idHash exDb2 exBfsEmpty ch₁
          = (t₁, Except.ok (db', bfs', s')) ∧
        applyChange exFs bfs' db' exSave 5 idHash c = (t₂, Except.error Err.ioError) ∧
        (update_save exDb2 exFs exBfsEmpty exSave 5 idHash).1 = t₁ ++ t₂)) :=
  ⟨(C9_update_save_all_or_nothing exDb3 exFs exBfsEmpty exSave 5 idHash).1,
   (C9_update_save_all_or_nothing exDb2 exFs exBfs exSave 5 idHash).2.1
     "\nMissing (NOW DELETING!!!): tmp/game/gone.dat" rfl,
   (C9_update_save_all_or_nothing exDb2 exFs exBfsEmpty exSave 5 idHash).2.2
     Err.ioError rfl⟩

end SaveSync
